import Mathlib

/-!
Verification development for the `beetle.cli` review-session core
(`src/commands/review.ts` and the comment-merge logic shared with `src/ui.ts`).

The TypeScript source is shallowly embedded: JS strings become `String`
(processed as `List Char`), JS numbers that stay integral become `Nat`/`Int`
(with `Int` wherever the source can go negative, e.g. the `-1` comment-index
sentinel and width budgets), and the specific regular expressions used by the
source are hand-translated into deterministic scanning functions whose
backtracking behaviour follows JS regex semantics for those concrete patterns.
-/

set_option maxHeartbeats 1000000

namespace BeetleCli

/-! ## JS character classes and basic string primitives -/

/-- The ESC character `\x1B` used by ANSI escape sequences. -/
def escChar : Char := Char.ofNat 27

/-- JS regex `\s` (whitespace) class: ASCII whitespace plus the Unicode
space characters JS includes (NBSP, ogham space, en/em spaces, line/para
separators, narrow NBSP, medium math space, ideographic space, BOM). -/
def isJsWs (c : Char) : Bool :=
  c == ' ' || c == '\t' || c == '\n' || c == Char.ofNat 11 || c == Char.ofNat 12 ||
  c == '\r' || c == Char.ofNat 0xa0 || c == Char.ofNat 0x1680 ||
  (decide (0x2000 ≤ c.toNat) && decide (c.toNat ≤ 0x200a)) ||
  c == Char.ofNat 0x2028 || c == Char.ofNat 0x2029 || c == Char.ofNat 0x202f ||
  c == Char.ofNat 0x205f || c == Char.ofNat 0x3000 || c == Char.ofNat 0xfeff

/-- JS regex `\w` (word) class: `[A-Za-z0-9_]`. -/
def isJsWord (c : Char) : Bool :=
  (decide ('a' ≤ c) && decide (c ≤ 'z')) || (decide ('A' ≤ c) && decide (c ≤ 'Z')) ||
  (decide ('0' ≤ c) && decide (c ≤ '9')) || c == '_'

/-- JS regex `\d` (digit) class. -/
def isJsDigit (c : Char) : Bool := decide ('0' ≤ c) && decide (c ≤ '9')

/-- ASCII lower-casing, used both for `toLowerCase()` and for the
case-insensitive (`/i`) matching of the ASCII-only marker patterns. -/
def asciiLower (c : Char) : Char :=
  if decide ('A' ≤ c) && decide (c ≤ 'Z') then Char.ofNat (c.toNat + 32) else c

/-- `String.prototype.toLowerCase()` for the ASCII strings the source compares. -/
def jsToLower (s : String) : String := String.mk (s.toList.map asciiLower)

/-- `String.prototype.trim()` (strips the `\s` set from both ends). -/
def jsTrimL (l : List Char) : List Char :=
  ((l.dropWhile isJsWs).reverse.dropWhile isJsWs).reverse

def jsTrim (s : String) : String := String.mk (jsTrimL s.toList)

/-- Case-sensitive literal match at the head of the input; returns the rest. -/
def matchLit : List Char → List Char → Option (List Char)
  | [], l => some l
  | _ :: _, [] => none
  | p :: ps, c :: cs => if c == p then matchLit ps cs else none

/-- Case-insensitive (ASCII) literal match at the head of the input. -/
def matchLitCI : List Char → List Char → Option (List Char)
  | [], l => some l
  | _ :: _, [] => none
  | p :: ps, c :: cs => if asciiLower c == asciiLower p then matchLitCI ps cs else none

/-! ## ANSI-aware text layout utilities (review.ts lines 185-278) -/

/-- After an ESC, parse the tail `\[[0-9;]*m` of the `stripAnsi` pattern
`/\x1B\[[0-9;]*m/`; returns the input remaining after the sequence. -/
def parseColorSeqGo : List Char → Option (List Char)
  | [] => none
  | c :: rest =>
    if c == 'm' then some rest
    else if c == ';' || isJsDigit c then parseColorSeqGo rest
    else none

def parseColorSeq : List Char → Option (List Char)
  | [] => none
  | c :: rest => if c == '[' then parseColorSeqGo rest else none

theorem parseColorSeqGo_length {l r : List Char} (h : parseColorSeqGo l = some r) :
    r.length < l.length := by
  induction l with
  | nil => simp [parseColorSeqGo] at h
  | cons c rest ih =>
    simp only [parseColorSeqGo] at h
    split at h
    · cases h; simp
    · split at h
      · exact Nat.lt_succ_of_lt (ih h)
      · cases h

theorem parseColorSeq_length {l r : List Char} (h : parseColorSeq l = some r) :
    r.length < l.length := by
  cases l with
  | nil => simp [parseColorSeq] at h
  | cons c rest =>
    simp only [parseColorSeq] at h
    split at h
    · exact Nat.lt_succ_of_lt (parseColorSeqGo_length h)
    · cases h

theorem dropWhile_length_le (p : Char → Bool) (l : List Char) :
    (l.dropWhile p).length ≤ l.length := by
  induction l with
  | nil => simp
  | cons c rest ih =>
    simp only [List.dropWhile_cons]
    split
    · exact Nat.le_succ_of_le ih
    · simp

/-- `stripAnsi(str)` = `str.replace(/\x1B\[[0-9;]*m/g, '')` (review.ts:185-187). -/
def stripAnsiL : List Char → List Char
  | [] => []
  | c :: rest =>
    if c == escChar then
      match h : parseColorSeq rest with
      | some rest' => stripAnsiL rest'
      | none => c :: stripAnsiL rest
    else c :: stripAnsiL rest
termination_by l => l.length
decreasing_by
  · simp only [List.length_cons]
    exact Nat.lt_succ_of_lt (parseColorSeq_length h)
  · simp
  · simp

def stripAnsi (s : String) : String := String.mk (stripAnsiL s.toList)

/-- Visible length of a chunk of characters (length after `stripAnsi`). -/
def visLenL (l : List Char) : Nat := (stripAnsiL l).length

/-- Visible length of a string: `stripAnsi(str).length`. -/
def visibleLen (s : String) : Nat := visLenL s.toList

/-- `padAnsi(str, width)` (review.ts:190-194); the width is `Int` because the
callers compute it with JS subtraction that may go negative. -/
def padAnsi (s : String) (width : Int) : String :=
  s ++ String.mk (List.replicate (width - (visibleLen s : Int)).toNat ' ')

/-- The character-copying loop of `truncate` (review.ts:209-230), carried out
on the state (remaining input, visibleCount, inAnsi, ansiStart, result).
`ansiStart` indexes into `result`, which is identical to the source's index
into `str` because every processed character is appended to `result`. -/
def truncLoop (limit : Int) :
    List Char → Nat → Bool → Option Nat → List Char →
    List Char × Nat × Bool × Option Nat
  | [], cnt, inA, aStart, result => (result, cnt, inA, aStart)
  | c :: rest, cnt, inA, aStart, result =>
    if (cnt : Int) < limit then
      if c == escChar then
        truncLoop limit rest cnt true (some result.length) (result ++ [c])
      else if inA then
        if c == 'm' then truncLoop limit rest cnt false none (result ++ [c])
        else truncLoop limit rest cnt inA aStart (result ++ [c])
      else truncLoop limit rest (cnt + 1) inA aStart (result ++ [c])
    else (result, cnt, inA, aStart)

/-- `truncate(str, maxLen)` (review.ts:204-244): return unchanged when the
visible length fits, otherwise copy up to `maxLen - 3` visible characters
(escape sequences passed through whole), drop a trailing incomplete escape
sequence, and append `...`. -/
def truncate (s : String) (maxLen : Int) : String :=
  if (visibleLen s : Int) ≤ maxLen then s
  else
    let r := truncLoop (maxLen - 3) s.toList 0 false none []
    let result := r.1
    let result :=
      match r.2.2.1, r.2.2.2 with
      | true, some aStart =>
        -- remove the incomplete ANSI sequence, re-truncating if needed
        let cut := result.take aStart
        let v := visLenL cut
        if (v : Int) > maxLen - 3 then
          cut.take (((cut.length : Int) - ((v : Int) - (maxLen - 3))).toNat)
        else cut
      | _, _ => result
    String.mk (result ++ ['.', '.', '.'])

/-- `truncateLine(str, maxWidth)` (review.ts:274-278). -/
def truncateLine (s : String) (maxWidth : Int) : String :=
  if (visibleLen s : Int) ≤ maxWidth then s else truncate s maxWidth

/-- `text.split(/\s+/)`: tokens separated by maximal whitespace runs, with an
empty leading/trailing token when the text starts/ends with whitespace
(JS `split` semantics). The recursion is carried by a fuel parameter — every
step consumes at least one character, so fuel `l.length` is always enough
(`splitWsF_fuel` below); `splitWsGo_nil`/`splitWsGo_cons` recover the direct
recurrences. -/
def splitWsF : Nat → List Char → List Char → List (List Char)
  | _, [], acc => [acc.reverse]
  | 0, _ :: _, acc => [acc.reverse]
  | n + 1, c :: rest, acc =>
    if isJsWs c then acc.reverse :: splitWsF n (rest.dropWhile isJsWs) []
    else splitWsF n rest (c :: acc)

def splitWsGo (l acc : List Char) : List (List Char) := splitWsF l.length l acc

theorem splitWsF_fuel :
    ∀ (n m : Nat) (l acc : List Char), m ≤ n → l.length ≤ m →
      splitWsF m l acc = splitWsF l.length l acc := by
  intro n
  induction n with
  | zero =>
    intro m l acc hm h
    have hl0 : l = [] := List.eq_nil_of_length_eq_zero (by omega)
    subst hl0
    cases m <;> rfl
  | succ n ih =>
    intro m l acc hm h
    cases l with
    | nil => cases m <;> rfl
    | cons c rest =>
      cases m with
      | zero => simp at h
      | succ m =>
        have hr : rest.length ≤ m := by
          simp only [List.length_cons] at h
          omega
        have hmn : m ≤ n := by omega
        simp only [splitWsF, List.length_cons]
        by_cases hw : isJsWs c
        · rw [if_pos hw, if_pos hw,
            ih m (rest.dropWhile isJsWs) [] hmn (le_trans (dropWhile_length_le _ _) hr),
            ih rest.length (rest.dropWhile isJsWs) [] (le_trans hr hmn)
              (dropWhile_length_le _ _)]
        · rw [if_neg hw, if_neg hw, ih m rest (c :: acc) hmn hr]

theorem splitWsGo_nil (acc : List Char) : splitWsGo [] acc = [acc.reverse] := rfl

theorem splitWsGo_cons (c : Char) (rest acc : List Char) :
    splitWsGo (c :: rest) acc =
      if isJsWs c then acc.reverse :: splitWsGo (rest.dropWhile isJsWs) []
      else splitWsGo rest (c :: acc) := by
  unfold splitWsGo
  simp only [List.length_cons, splitWsF]
  by_cases hw : isJsWs c
  · rw [if_pos hw, if_pos hw,
      splitWsF_fuel rest.length rest.length (rest.dropWhile isJsWs) [] (le_refl _)
        (dropWhile_length_le _ _)]
  · rw [if_neg hw, if_neg hw]

/-- The word-packing loop of `wordWrap` (review.ts:251-269). -/
def wordWrapGo (maxWidth : Int) : List (List Char) → List Char → List (List Char)
  | [], cur => if cur.isEmpty then [] else [cur]
  | w :: ws, cur =>
    let test := if cur.isEmpty then w else cur ++ ' ' :: w
    if (visLenL test : Int) > maxWidth then
      if !cur.isEmpty then cur :: wordWrapGo maxWidth ws w
      else (truncate (String.mk w) maxWidth).toList :: wordWrapGo maxWidth ws []
    else wordWrapGo maxWidth ws test

/-- `wordWrap(text, maxWidth)` (review.ts:246-271). -/
def wordWrap (s : String) (maxWidth : Int) : List String :=
  (wordWrapGo maxWidth (splitWsGo s.toList []) []).map String.mk

/-! ## Data model (review.ts lines 46-65, api interface in ui.ts lines 504-514) -/

/-- `ReviewComment` as delivered by the review service. Line numbers are `Int`
since they are arbitrary JSON numbers. -/
structure ReviewComment where
  id : String
  file_path : String
  line_start : Int
  line_end : Int
  severity : String
  confidence : String
  title : String
  content : String
  created_at : String
deriving DecidableEq, Repr

inductive Mode
  | list
  | detail
deriving DecidableEq, Repr

inductive Panel
  | left
  | right
deriving DecidableEq, Repr

/-- Analysis status. The `ReviewState` field is typed `running|completed|failed`
in TS but the unchecked cast at review.ts:1134 can also store `interrupted`,
so the four-valued API type is used throughout. -/
inductive Status
  | running
  | completed
  | failed
  | interrupted
deriving DecidableEq, Repr

structure FileGroup where
  filePath : String
  comments : List ReviewComment
  expanded : Bool
deriving DecidableEq, Repr

/-- `ReviewState` (review.ts:52-65). `selectedCommentIndex` is `Int` because of
the `-1` "file header selected" sentinel; `selectedFileIndex` is `Int` to keep
JS number semantics. The scroll offsets are `Nat`: every write in the source is
of the form `Math.max(0, …)` or an increment, which truncated `Nat` subtraction
models exactly. -/
structure ReviewState where
  dataId : Option String
  mode : Mode
  focusedPanel : Panel
  files : List FileGroup
  selectedFileIndex : Int
  selectedCommentIndex : Int
  detailScrollOffset : Nat
  leftPanelScrollOffset : Nat
  totalComments : Nat
  resolvedComments : Nat
  status : Status
  spinnerFrame : Nat
deriving DecidableEq, Repr

/-- JS `files[i]`: `undefined` (`none`) for a negative or out-of-range index. -/
def fileAt (files : List FileGroup) (i : Int) : Option FileGroup :=
  if i < 0 then none else files[i.toNat]?

/-! ## Navigation (review.ts lines 795-849) -/

/-- The common tail of `navigateUp`/`navigateDown`: reset the detail scroll
when navigating in detail mode (review.ts:816-818 and 845-847). -/
def resetDetailScroll (s : ReviewState) : ReviewState :=
  if s.mode = Mode.detail then { s with detailScrollOffset := 0 } else s

theorem resetDetailScroll_files (s : ReviewState) : (resetDetailScroll s).files = s.files := by
  unfold resetDetailScroll; split <;> rfl

theorem resetDetailScroll_cursorOf (s : ReviewState) :
    (resetDetailScroll s).selectedFileIndex = s.selectedFileIndex ∧
    (resetDetailScroll s).selectedCommentIndex = s.selectedCommentIndex := by
  unfold resetDetailScroll; split <;> exact ⟨rfl, rfl⟩

/-- `navigateUp(state)` (review.ts:795-820). The source's unused local
`const file = …` is omitted. In the `none` arm (index out of range after the
decrement, unreachable from the in-range states the session maintains) the
source would fault reading `prevFile.expanded`. -/
def navigateUp (s : ReviewState) : ReviewState :=
  resetDetailScroll <|
    if s.selectedCommentIndex > 0 then
      { s with selectedCommentIndex := s.selectedCommentIndex - 1 }
    else if s.selectedCommentIndex = 0 then
      { s with selectedCommentIndex := -1 }
    else if s.selectedFileIndex > 0 then
      match fileAt s.files (s.selectedFileIndex - 1) with
      | some prevFile =>
        if prevFile.expanded ∧ prevFile.comments.length > 0 then
          { s with selectedFileIndex := s.selectedFileIndex - 1,
                   selectedCommentIndex := (prevFile.comments.length : Int) - 1 }
        else
          { s with selectedFileIndex := s.selectedFileIndex - 1,
                   selectedCommentIndex := -1 }
      | none =>
        { s with selectedFileIndex := s.selectedFileIndex - 1,
                 selectedCommentIndex := -1 }
    else s

/-- `navigateDown(state)` (review.ts:822-849). -/
def navigateDown (s : ReviewState) : ReviewState :=
  match fileAt s.files s.selectedFileIndex with
  | none => s
  | some file =>
    resetDetailScroll <|
      if s.selectedCommentIndex = -1 then
        if file.expanded ∧ file.comments.length > 0 then
          { s with selectedCommentIndex := 0 }
        else if s.selectedFileIndex < (s.files.length : Int) - 1 then
          { s with selectedFileIndex := s.selectedFileIndex + 1,
                   selectedCommentIndex := -1 }
        else s
      else if s.selectedCommentIndex < (file.comments.length : Int) - 1 then
        { s with selectedCommentIndex := s.selectedCommentIndex + 1 }
      else if s.selectedFileIndex < (s.files.length : Int) - 1 then
        { s with selectedFileIndex := s.selectedFileIndex + 1,
                 selectedCommentIndex := -1 }
      else s

/-- The compound cursor `(selectedFileIndex, selectedCommentIndex)`. -/
def cursorOf (s : ReviewState) : Int × Int := (s.selectedFileIndex, s.selectedCommentIndex)

/-- Cursor-level restatement of `navigateDown`'s case analysis, to reason
about the traversal independently of the rest of the state. -/
def navDownPos (files : List FileGroup) (p : Int × Int) : Int × Int :=
  match fileAt files p.1 with
  | none => p
  | some file =>
    if p.2 = -1 then
      if file.expanded ∧ file.comments.length > 0 then (p.1, 0)
      else if p.1 < (files.length : Int) - 1 then (p.1 + 1, -1)
      else p
    else if p.2 < (file.comments.length : Int) - 1 then (p.1, p.2 + 1)
    else if p.1 < (files.length : Int) - 1 then (p.1 + 1, -1)
    else p

theorem navigateDown_files (s : ReviewState) : (navigateDown s).files = s.files := by
  unfold navigateDown
  cases fileAt s.files s.selectedFileIndex <;> dsimp only
  case some =>
    rw [resetDetailScroll_files]
    repeat' split
    all_goals rfl

theorem navigateDown_cursorOf (s : ReviewState) :
    cursorOf (navigateDown s) = navDownPos s.files (cursorOf s) := by
  unfold navigateDown navDownPos cursorOf
  cases fileAt s.files s.selectedFileIndex <;> dsimp only
  case some =>
    rw [Prod.ext_iff]
    rw [(resetDetailScroll_cursorOf _).1, (resetDetailScroll_cursorOf _).2]
    repeat' split
    all_goals exact ⟨rfl, rfl⟩

/-- One file's navigable items at absolute file index `i`: the header `(i, -1)`
followed, when the file is expanded, by `(i, 0) … (i, k-1)`. -/
def navSeqFrom (i : Int) : List FileGroup → List (Int × Int)
  | [] => []
  | f :: rest =>
    (i, -1) ::
      ((if f.expanded then
          (List.range f.comments.length).map (fun (c : Nat) => (i, (c : Int)))
        else []) ++ navSeqFrom (i + 1) rest)

/-- The flattened navigation sequence named by the claim:
[file-header, comment₀, comment₁, …, next file-header, …], with a collapsed
file's comments skipped entirely. -/
def navSeq (files : List FileGroup) : List (Int × Int) := navSeqFrom 0 files

def shiftPos (p : Int × Int) : Int × Int := (p.1 + 1, p.2)

theorem navSeqFrom_succ (i : Int) (l : List FileGroup) :
    navSeqFrom (i + 1) l = (navSeqFrom i l).map shiftPos := by
  induction l generalizing i with
  | nil => rfl
  | cons f rest ih =>
    simp only [navSeqFrom, List.map_cons, List.map_append, List.map_map, ih]
    by_cases hexp : f.expanded = true <;>
      simp [hexp, shiftPos, Function.comp]

theorem navSeqFrom_fst_le (i : Int) (l : List FileGroup) (p : Int × Int)
    (hp : p ∈ navSeqFrom i l) : i ≤ p.1 := by
  induction l generalizing i with
  | nil => simp [navSeqFrom] at hp
  | cons f rest ih =>
    simp only [navSeqFrom, List.mem_cons, List.mem_append] at hp
    rcases hp with h | h | h
    · subst h; simp
    · split at h
      · simp only [List.mem_map] at h
        obtain ⟨c, _, rfl⟩ := h
        simp
      · simp at h
    · have := ih (i + 1) h
      omega

theorem navDownPos_cons (f : FileGroup) (rest : List FileGroup) (fi ci : Int)
    (hfi : 0 ≤ fi) :
    navDownPos (f :: rest) (fi + 1, ci) = shiftPos (navDownPos rest (fi, ci)) := by
  have h1 : fileAt (f :: rest) (fi + 1) = fileAt rest fi := by
    unfold fileAt
    rw [if_neg (by omega), if_neg (by omega)]
    rw [show (fi + 1).toNat = fi.toNat + 1 by omega]
    rw [List.getElem?_cons_succ]
  unfold navDownPos
  dsimp only
  rw [h1]
  cases hfa : fileAt rest fi with
  | none => simp [shiftPos]
  | some file =>
    dsimp only
    have hiff : (fi + 1 < ((f :: rest).length : Int) - 1) ↔ (fi < (rest.length : Int) - 1) := by
      simp only [List.length_cons]
      push_cast
      omega
    simp only [hiff]
    split_ifs <;> simp [shiftPos]

theorem fileAt_cons_zero (f : FileGroup) (rest : List FileGroup) :
    fileAt (f :: rest) 0 = some f := by
  unfold fileAt
  rw [if_neg (by omega)]
  simp

theorem navSeq_cons (f : FileGroup) (rest : List FileGroup) :
    navSeq (f :: rest) =
      ((0 : Int), (-1 : Int)) ::
        ((if f.expanded then
            (List.range f.comments.length).map (fun (c : Nat) => ((0 : Int), (c : Int)))
          else []) ++ (navSeq rest).map shiftPos) := by
  unfold navSeq
  rw [show navSeqFrom 0 (f :: rest) =
      ((0 : Int), (-1 : Int)) ::
        ((if f.expanded then
            (List.range f.comments.length).map (fun (c : Nat) => ((0 : Int), (c : Int)))
          else []) ++ navSeqFrom (0 + 1) rest) from rfl]
  rw [navSeqFrom_succ]

theorem navSeq_head (files : List FileGroup) (h : files ≠ []) :
    (navSeq files)[0]? = some ((0 : Int), (-1 : Int)) := by
  cases files with
  | nil => exact absurd rfl h
  | cons f rest => rw [navSeq_cons, List.getElem?_cons_zero]

theorem getElem?_append_left' {α : Type} (l1 l2 : List α) (n : Nat) (h : n < l1.length) :
    (l1 ++ l2)[n]? = l1[n]? := by
  rw [List.getElem?_append]
  exact if_pos h

theorem getElem?_append_right' {α : Type} (l1 l2 : List α) (n : Nat) (h : l1.length ≤ n) :
    (l1 ++ l2)[n]? = l2[n - l1.length]? := by
  rw [List.getElem?_append]
  rw [if_neg (by omega)]

/-- The step invariant behind C1: from the `j`-th item of the flattened
navigation sequence, `navigateDown`'s cursor arithmetic moves to the
`(j+1)`-th item, or stays put when the `j`-th item is the last. -/
theorem navDownPos_succ (files : List FileGroup) (j : Nat) (p : Int × Int)
    (hp : (navSeq files)[j]? = some p) :
    navDownPos files p = ((navSeq files)[j + 1]?).getD p := by
  induction files generalizing j p with
  | nil => simp [navSeq, navSeqFrom] at hp
  | cons f rest ih =>
    rw [navSeq_cons] at hp ⊢
    cases j with
    | zero =>
      rw [List.getElem?_cons_zero] at hp
      have hpv : p = ((0 : Int), (-1 : Int)) := (Option.some.inj hp).symm
      subst hpv
      rw [List.getElem?_cons_succ]
      unfold navDownPos
      rw [fileAt_cons_zero]
      dsimp only
      rw [if_pos rfl]
      by_cases hexp : f.expanded ∧ f.comments.length > 0
      · rw [if_pos hexp]
        have h0 : ((if f.expanded then
            (List.range f.comments.length).map (fun (c : Nat) => ((0 : Int), (c : Int)))
          else []) ++ (navSeq rest).map shiftPos)[0]? = some ((0 : Int), (0 : Int)) := by
          rw [if_pos hexp.1]
          rw [getElem?_append_left' _ _ 0 (by simpa using hexp.2)]
          rw [List.getElem?_map, List.getElem?_range hexp.2]
          rfl
        rw [h0]
        rfl
      · rw [if_neg hexp]
        have hblk : (if f.expanded then
            (List.range f.comments.length).map (fun (c : Nat) => ((0 : Int), (c : Int)))
          else []) = [] := by
          by_cases he : f.expanded
          · rw [if_pos he]
            have hk0 : f.comments.length = 0 := by
              by_contra hk
              exact hexp ⟨he, Nat.pos_of_ne_zero hk⟩
            rw [hk0]
            rfl
          · rw [if_neg he]
        rw [hblk, List.nil_append]
        cases rest with
        | nil =>
          rw [if_neg (by simp)]
          simp [navSeq, navSeqFrom]
        | cons r rs =>
          rw [if_pos (by simp only [List.length_cons]; push_cast; omega)]
          rw [navSeq_cons r rs, List.map_cons, List.getElem?_cons_zero]
          rfl
    | succ jj =>
      rw [List.getElem?_cons_succ] at hp
      rw [List.getElem?_cons_succ]
      set blk := (if f.expanded then
          (List.range f.comments.length).map (fun (c : Nat) => ((0 : Int), (c : Int)))
        else []) with hblkdef
      by_cases hjj : jj < blk.length
      · have hexp : f.expanded := by
          by_contra he
          rw [hblkdef] at hjj
          simp [he] at hjj
        have hk : jj < f.comments.length := by
          rw [hblkdef] at hjj
          simpa [hexp] using hjj
        have hblen : blk.length = f.comments.length := by
          rw [hblkdef, if_pos hexp]
          simp
        have hpv : p = ((0 : Int), (jj : Int)) := by
          rw [getElem?_append_left' _ _ jj hjj, hblkdef, if_pos hexp,
            List.getElem?_map, List.getElem?_range hk] at hp
          exact (Option.some.inj hp).symm
        subst hpv
        unfold navDownPos
        rw [fileAt_cons_zero]
        dsimp only
        rw [if_neg (by omega)]
        by_cases hlt : jj + 1 < f.comments.length
        · rw [if_pos (by push_cast; omega)]
          rw [getElem?_append_left' _ _ (jj + 1)
            (by rw [hblkdef, if_pos hexp]; simpa using hlt)]
          rw [hblkdef, if_pos hexp, List.getElem?_map, List.getElem?_range hlt]
          rfl
        · rw [if_neg (by push_cast; omega)]
          rw [getElem?_append_right' _ _ (jj + 1) (by omega)]
          have hsub : jj + 1 - blk.length = 0 := by omega
          rw [hsub]
          cases rest with
          | nil =>
            rw [if_neg (by simp)]
            simp [navSeq, navSeqFrom]
          | cons r rs =>
            rw [if_pos (by simp only [List.length_cons]; push_cast; omega)]
            rw [navSeq_cons r rs, List.map_cons, List.getElem?_cons_zero]
            rfl
      · push_neg at hjj
        rw [getElem?_append_right' _ _ jj hjj] at hp
        rw [List.getElem?_map] at hp
        cases hq : (navSeq rest)[jj - blk.length]? with
        | none => rw [hq] at hp; cases hp
        | some p' =>
          rw [hq] at hp
          have hpv : p = shiftPos p' := (Option.some.inj hp).symm
          subst hpv
          have hfst : (0 : Int) ≤ p'.1 :=
            navSeqFrom_fst_le 0 rest p' (List.getElem?_mem hq)
          have hcons1 : navDownPos (f :: rest) (shiftPos p') =
              shiftPos (navDownPos rest p') := by
            have h2 := navDownPos_cons f rest p'.1 p'.2 hfst
            simpa [shiftPos] using h2
          rw [hcons1]
          rw [ih (jj - blk.length) p' hq]
          rw [getElem?_append_right' _ _ (jj + 1) (by omega)]
          rw [List.getElem?_map]
          rw [show jj + 1 - blk.length = (jj - blk.length) + 1 by omega]
          cases hnext : (navSeq rest)[(jj - blk.length) + 1]? with
          | none => simp [hnext]
          | some q' => simp [hnext]

theorem navigateDown_iterate_files (s : ReviewState) (n : Nat) :
    (navigateDown^[n] s).files = s.files := by
  induction n with
  | zero => rfl
  | succ n ih =>
    rw [Function.iterate_succ_apply', navigateDown_files, ih]

/-- Claim C1: starting from the first item of the flattened navigation
sequence `[file-header, comment₀, …, next file-header, …]` (collapsed files'
comments skipped), after `n` presses of `down` the compound cursor
`(selectedFileIndex, selectedCommentIndex)` sits exactly at item
`min n (len - 1)` of that sequence: every item is visited exactly once, in
order, with no wrap, no skip, no revisit, and the cursor clamps at the last
item. -/
theorem C1_down_traversal (s : ReviewState) (hne : s.files ≠ [])
    (h0 : s.selectedFileIndex = 0) (h1 : s.selectedCommentIndex = -1) (n : Nat) :
    (navSeq s.files)[min n ((navSeq s.files).length - 1)]? =
      some (cursorOf (navigateDown^[n] s)) := by
  have hL1 : 1 ≤ (navSeq s.files).length := by
    obtain ⟨hlt, _⟩ := List.getElem?_eq_some.mp (navSeq_head s.files hne)
    omega
  induction n with
  | zero =>
    have hc : cursorOf s = ((0 : Int), (-1 : Int)) := by
      unfold cursorOf
      rw [h0, h1]
    simp only [Function.iterate_zero, id, Nat.zero_min, hc]
    exact navSeq_head s.files hne
  | succ n ih =>
    rw [Function.iterate_succ_apply']
    rw [show cursorOf (navigateDown (navigateDown^[n] s)) =
        navDownPos (navigateDown^[n] s).files (cursorOf (navigateDown^[n] s)) from
      navigateDown_cursorOf _]
    rw [navigateDown_iterate_files]
    rw [navDownPos_succ s.files (min n ((navSeq s.files).length - 1)) _ ih]
    by_cases hc : min n ((navSeq s.files).length - 1) + 1 < (navSeq s.files).length
    · rw [show min (n + 1) ((navSeq s.files).length - 1) =
          min n ((navSeq s.files).length - 1) + 1 by omega]
      cases hnext : (navSeq s.files)[min n ((navSeq s.files).length - 1) + 1]? with
      | none =>
        have := List.getElem?_eq_none_iff.mp hnext
        omega
      | some q => simp [hnext]
    · have hnone : (navSeq s.files)[min n ((navSeq s.files).length - 1) + 1]? = none := by
        apply List.getElem?_eq_none
        omega
      rw [hnone]
      simp only [Option.getD_none]
      rw [show min (n + 1) ((navSeq s.files).length - 1) =
          min n ((navSeq s.files).length - 1) by omega]
      exact ih

/-- Example state for the C1 witness: an expanded file with one comment
followed by a collapsed file with one comment. -/
def exComment (t : String) : ReviewComment :=
  { id := t, file_path := "a.ts", line_start := 1, line_end := 1, severity := "High",
    confidence := "high", title := t, content := "", created_at := "" }

def c1State : ReviewState :=
  { dataId := none, mode := Mode.list, focusedPanel := Panel.left,
    files := [{ filePath := "a.ts", comments := [exComment "x"], expanded := true },
              { filePath := "b.ts", comments := [exComment "y"], expanded := false }],
    selectedFileIndex := 0, selectedCommentIndex := -1, detailScrollOffset := 0,
    leftPanelScrollOffset := 0, totalComments := 2, resolvedComments := 0,
    status := Status.running, spinnerFrame := 0 }

theorem C1_down_traversal_witness :
    (c1State.files ≠ [] ∧ c1State.selectedFileIndex = 0 ∧
      c1State.selectedCommentIndex = -1) ∧
    (navSeq c1State.files)[min 2 ((navSeq c1State.files).length - 1)]? =
      some (cursorOf (navigateDown^[2] c1State)) :=
  ⟨⟨by decide, rfl, rfl⟩, C1_down_traversal c1State (by decide) rfl rfl 2⟩

/-! ## Comment merging (review.ts lines 1100-1113; same logic in
ui.ts `addCommentsToState`, lines 377-401) -/

/-- The duplicate test of `addComments`:
`x.line_start === c.line_start && x.title === c.title`. -/
def isDupComment (x c : ReviewComment) : Bool :=
  x.line_start == c.line_start && x.title == c.title

/-- Walk `state.files` the way `find` + push does: at the first group whose
`filePath` equals the comment's, run the duplicate check and append the
comment if new; if no group matches, create one at the end holding the
comment (the source pushes an empty group and then necessarily appends the
comment to it, since the duplicate check on an empty list is false).
Returns the new list and whether a comment was actually added. -/
def insertComment : List FileGroup → ReviewComment → List FileGroup × Bool
  | [], c => ([{ filePath := c.file_path, comments := [c], expanded := true }], true)
  | fg :: rest, c =>
    if fg.filePath == c.file_path then
      if fg.comments.any (fun x => isDupComment x c) then (fg :: rest, false)
      else ({ fg with comments := fg.comments ++ [c] } :: rest, true)
    else
      let r := insertComment rest c
      (fg :: r.1, r.2)

/-- One iteration of the `comments.forEach` body of `addComments`
(review.ts:1101-1112): merge a single comment, bumping `totalComments`
exactly when the comment was not a duplicate. -/
def addComment (s : ReviewState) (c : ReviewComment) : ReviewState :=
  let r := insertComment s.files c
  { s with files := r.1,
           totalComments := if r.2 then s.totalComments + 1 else s.totalComments }

/-- `addComments(comments)` (review.ts:1100-1113): fold the per-comment merge
over the polled list in order. -/
def addComments (s : ReviewState) (cs : List ReviewComment) : ReviewState :=
  cs.foldl addComment s

/-- "The comment's file path already has a file group containing a comment
with equal (line_start, title)": the duplicate condition of the claim,
evaluated against the first group with that path (the one `find` returns). -/
def hasDuplicate (files : List FileGroup) (c : ReviewComment) : Bool :=
  match files.find? (fun f => f.filePath == c.file_path) with
  | some fg => fg.comments.any (fun x => isDupComment x c)
  | none => false

/-- The claim's description of a non-duplicate merge: append the comment to
its file group, creating the group at the end of `files` (first-seen order)
when absent. -/
def appendFresh : List FileGroup → ReviewComment → List FileGroup
  | [], c => [{ filePath := c.file_path, comments := [c], expanded := true }]
  | fg :: rest, c =>
    if fg.filePath == c.file_path then
      { fg with comments := fg.comments ++ [c] } :: rest
    else fg :: appendFresh rest c

theorem hasDuplicate_cons_pos (fg : FileGroup) (rest : List FileGroup)
    (c : ReviewComment) (h : (fg.filePath == c.file_path) = true) :
    hasDuplicate (fg :: rest) c = fg.comments.any (fun x => isDupComment x c) := by
  unfold hasDuplicate
  simp only [List.find?_cons, h]

theorem hasDuplicate_cons_neg (fg : FileGroup) (rest : List FileGroup)
    (c : ReviewComment) (h : (fg.filePath == c.file_path) = false) :
    hasDuplicate (fg :: rest) c = hasDuplicate rest c := by
  unfold hasDuplicate
  simp only [List.find?_cons, h]

theorem insertComment_dup (files : List FileGroup) (c : ReviewComment)
    (h : hasDuplicate files c = true) : insertComment files c = (files, false) := by
  induction files with
  | nil => simp [hasDuplicate] at h
  | cons fg rest ih =>
    unfold insertComment
    by_cases hpath : (fg.filePath == c.file_path) = true
    · rw [hasDuplicate_cons_pos fg rest c hpath] at h
      rw [if_pos hpath, if_pos h]
    · have hpath' : (fg.filePath == c.file_path) = false := by
        simpa using hpath
      rw [hasDuplicate_cons_neg fg rest c hpath'] at h
      rw [if_neg hpath]
      rw [ih h]

theorem insertComment_fresh (files : List FileGroup) (c : ReviewComment)
    (h : hasDuplicate files c = false) :
    insertComment files c = (appendFresh files c, true) := by
  induction files with
  | nil => rfl
  | cons fg rest ih =>
    unfold insertComment appendFresh
    by_cases hpath : (fg.filePath == c.file_path) = true
    · rw [hasDuplicate_cons_pos fg rest c hpath] at h
      rw [if_pos hpath, if_pos hpath, if_neg (by simp [h])]
    · have hpath' : (fg.filePath == c.file_path) = false := by
        simpa using hpath
      rw [hasDuplicate_cons_neg fg rest c hpath'] at h
      rw [if_neg hpath, if_neg hpath]
      rw [ih h]

theorem addComment_dup (s : ReviewState) (c : ReviewComment)
    (h : hasDuplicate s.files c = true) : addComment s c = s := by
  unfold addComment
  rw [insertComment_dup s.files c h]
  rfl

/-- Claim C2: merging a single comment is a no-op on the whole state when a
comment with equal (line_start, title) already sits in the file group for its
path; otherwise the comment is appended to its group (the group being created
at the end of `files` when absent) and `totalComments` grows by exactly one. -/
theorem C2_merge_dedup (s : ReviewState) (c : ReviewComment) :
    if hasDuplicate s.files c then addComment s c = s
    else (addComment s c).totalComments = s.totalComments + 1 ∧
      (addComment s c).files = appendFresh s.files c := by
  by_cases h : hasDuplicate s.files c
  · rw [if_pos h]
    exact addComment_dup s c h
  · rw [if_neg h]
    unfold addComment
    rw [insertComment_fresh s.files c (by simpa using h)]
    exact ⟨rfl, rfl⟩

theorem hasDuplicate_insert_self (files : List FileGroup) (c : ReviewComment) :
    hasDuplicate (insertComment files c).1 c = true := by
  induction files with
  | nil =>
    simp [insertComment, hasDuplicate, List.find?, isDupComment]
  | cons fg rest ih =>
    unfold insertComment
    by_cases hpath : (fg.filePath == c.file_path) = true
    · rw [if_pos hpath]
      by_cases hdup : fg.comments.any (fun x => isDupComment x c) = true
      · rw [if_pos hdup]
        rw [hasDuplicate_cons_pos fg rest c hpath]
        exact hdup
      · rw [if_neg hdup]
        dsimp only
        rw [hasDuplicate_cons_pos { fg with comments := fg.comments ++ [c] } rest c hpath]
        simp [isDupComment]
    · have hpath' : (fg.filePath == c.file_path) = false := by
        simpa using hpath
      rw [if_neg hpath]
      dsimp only
      rw [hasDuplicate_cons_neg fg (insertComment rest c).1 c hpath']
      exact ih

theorem hasDuplicate_insert_mono (files : List FileGroup) (c d : ReviewComment)
    (h : hasDuplicate files d = true) :
    hasDuplicate (insertComment files c).1 d = true := by
  induction files with
  | nil => simp [hasDuplicate] at h
  | cons fg rest ih =>
    unfold insertComment
    by_cases hdpath : (fg.filePath == d.file_path) = true
    · rw [hasDuplicate_cons_pos fg rest d hdpath] at h
      by_cases hcpath : (fg.filePath == c.file_path) = true
      · rw [if_pos hcpath]
        by_cases hdup : fg.comments.any (fun x => isDupComment x c) = true
        · rw [if_pos hdup]
          rw [hasDuplicate_cons_pos fg rest d hdpath]
          exact h
        · rw [if_neg hdup]
          dsimp only
          rw [hasDuplicate_cons_pos { fg with comments := fg.comments ++ [c] } rest d hdpath]
          simp only [List.any_append]
          simp [h]
      · rw [if_neg hcpath]
        dsimp only
        rw [hasDuplicate_cons_pos fg (insertComment rest c).1 d hdpath]
        exact h
    · have hdpath' : (fg.filePath == d.file_path) = false := by
        simpa using hdpath
      rw [hasDuplicate_cons_neg fg rest d hdpath'] at h
      by_cases hcpath : (fg.filePath == c.file_path) = true
      · rw [if_pos hcpath]
        by_cases hdup : fg.comments.any (fun x => isDupComment x c) = true
        · rw [if_pos hdup]
          rw [hasDuplicate_cons_neg fg rest d hdpath']
          exact h
        · rw [if_neg hdup]
          dsimp only
          rw [hasDuplicate_cons_neg { fg with comments := fg.comments ++ [c] } rest d hdpath']
          exact h
      · rw [if_neg hcpath]
        dsimp only
        rw [hasDuplicate_cons_neg fg (insertComment rest c).1 d hdpath']
        exact ih h

theorem addComment_files (s : ReviewState) (c : ReviewComment) :
    (addComment s c).files = (insertComment s.files c).1 := rfl

theorem hasDuplicate_addComments_mono (s : ReviewState) (cs : List ReviewComment)
    (d : ReviewComment) (h : hasDuplicate s.files d = true) :
    hasDuplicate (addComments s cs).files d = true := by
  induction cs generalizing s with
  | nil => exact h
  | cons c rest ih =>
    unfold addComments
    rw [List.foldl_cons]
    exact ih (addComment s c)
      (by rw [addComment_files]; exact hasDuplicate_insert_mono s.files c d h)

theorem addComments_all_dup (s : ReviewState) (cs : List ReviewComment) :
    ∀ c ∈ cs, hasDuplicate (addComments s cs).files c = true := by
  induction cs generalizing s with
  | nil => intro c hc; cases hc
  | cons c rest ih =>
    intro d hd
    unfold addComments
    rw [List.foldl_cons]
    rcases List.mem_cons.mp hd with rfl | hdrest
    · have hbase : hasDuplicate (addComment s d).files d = true := by
        rw [addComment_files]
        exact hasDuplicate_insert_self s.files d
      exact hasDuplicate_addComments_mono (addComment s d) rest d hbase
    · exact ih (addComment s c) d hdrest

theorem addComments_of_all_dup (s : ReviewState) (cs : List ReviewComment)
    (h : ∀ c ∈ cs, hasDuplicate s.files c = true) : addComments s cs = s := by
  induction cs generalizing s with
  | nil => rfl
  | cons c rest ih =>
    unfold addComments
    rw [List.foldl_cons]
    rw [addComment_dup s c (h c (by simp))]
    exact ih s (fun d hd => h d (by simp [hd]))

/-- Claim C10: the poll-merge is idempotent: merging the same comment list a
second time changes nothing, so re-delivery of already-merged poll results
never changes the state. -/
theorem C10_merge_idempotent (s : ReviewState) (cs : List ReviewComment) :
    addComments (addComments s cs) cs = addComments s cs :=
  addComments_of_all_dup (addComments s cs) cs (addComments_all_dup s cs)


/-! ## Regex scaffolding for the comment parser (review.ts lines 315-398)

Each regular expression the source uses is hand-translated into a
deterministic scanner. `scanFirst` realises JS leftmost-match semantics;
the individual `…Try` functions realise one attempt at a fixed position,
following the backtracking behaviour of the concrete pattern. -/

/-- Scan positions left to right, returning the first successful match
(JS regex leftmost-match semantics). -/
def scanFirst {α : Type} (try1 : List Char → Option α) : List Char → Option α
  | [] => try1 []
  | l@(_ :: rest) =>
    match try1 l with
    | some a => some a
    | none => scanFirst try1 rest

/-- Global `replace` with empty-or-computed replacement: at each position try
the matcher; on a match emit its replacement and continue after the consumed
text, otherwise keep one character and move on. `fuel` bounds the recursion;
callers pass the input length, which suffices because every match consumes at
least one character. -/
def replaceScan (try1 : List Char → Option (List Char × List Char)) :
    Nat → List Char → List Char
  | _, [] => []
  | 0, l => l
  | fuel + 1, c :: rest =>
    match try1 (c :: rest) with
    | some (rep, after) => rep ++ replaceScan try1 fuel after
    | none => c :: replaceScan try1 fuel rest

/-- Non-global `replace`: rewrite only the leftmost match. -/
def replaceFirst (try1 : List Char → Option (List Char × List Char)) :
    List Char → List Char
  | [] =>
    match try1 [] with
    | some (rep, after) => rep ++ after
    | none => []
  | c :: rest =>
    match try1 (c :: rest) with
    | some (rep, after) => rep ++ after
    | none => c :: replaceFirst try1 rest

/-- `([\s\S]*?)TERM` (case-sensitive): lazy capture up to the earliest
occurrence of the terminator; `none` when the terminator never occurs. -/
def lazyCapture (term : List Char) : List Char → Option (List Char)
  | [] => if term.isEmpty then some [] else none
  | l@(c :: rest) =>
    match matchLit term l with
    | some _ => some []
    | none => (lazyCapture term rest).map (fun cap => c :: cap)

/-- Case-insensitive variant of `lazyCapture`. -/
def lazyCaptureCI (term : List Char) : List Char → Option (List Char)
  | [] => if term.isEmpty then some [] else none
  | l@(c :: rest) =>
    match matchLitCI term l with
    | some _ => some []
    | none => (lazyCaptureCI term rest).map (fun cap => c :: cap)

/-- `[\s\S]*?TERM` (case-insensitive), returning the remainder after the
terminator (used when the lazily matched text is discarded). -/
def lazyDropCI (term : List Char) : List Char → Option (List Char)
  | [] => matchLitCI term []
  | l@(_ :: rest) =>
    match matchLitCI term l with
    | some after => some after
    | none => lazyDropCI term rest

/-- `.*?TERM` (no newlines, lazy), returning the remainder after the
terminator. -/
def lazyNoNlUntil (term : List Char) : List Char → Option (List Char)
  | [] => matchLit term []
  | l@(c :: rest) =>
    match matchLit term l with
    | some after => some after
    | none => if c == '\n' then none else lazyNoNlUntil term rest

/-- `[\s\S]*?c` for a single character, returning the remainder after it. -/
def lazyUntilChar (t : Char) : List Char → Option (List Char)
  | [] => none
  | c :: rest => if c == t then some rest else lazyUntilChar t rest

/-- The `\s*(\w+)` tail of the Severity marker. `\s` and `\w` are disjoint,
so the greedy whitespace run never backtracks. -/
def matchWsWord (l : List Char) : Option (List Char) :=
  let rest := l.dropWhile isJsWs
  let w := rest.takeWhile isJsWord
  if w.isEmpty then none else some w

/-- The `\s*(\d+)` tail of the Line_Start / Line_End markers. -/
def matchWsDigits (l : List Char) : Option (List Char) :=
  let rest := l.dropWhile isJsWs
  let w := rest.takeWhile isJsDigit
  if w.isEmpty then none else some w

/-- The `\s*([^\n]+)` tail of the Title marker. Greedy `\s*` backtracks
from the longest run until `[^\n]+` can start with a non-newline character;
the first (longest) surviving split wins, which when it lands inside the
whitespace run captures exactly one whitespace character. -/
def titleCaptureTail (l : List Char) : Option (List Char) :=
  let ws := l.takeWhile isJsWs
  let rest := l.drop ws.length
  let headOk :=
    match rest with
    | c :: _ => !(c == '\n')
    | [] => false
  if headOk then some (rest.takeWhile (fun d => !(d == '\n')))
  else
    match ws.reverse.dropWhile (fun d => d == '\n') with
    | [] => none
    | d :: _ => some [d]

/-- One attempt of `<details>\s*<summary>\s*SUMMARY\s*<\/summary>([\s\S]*?)<\/details>`
(case-insensitive); every literal starts with a non-whitespace character, so
the greedy `\s*` runs never backtrack. -/
def detailsSectionTry (summaryLit : List Char) (l : List Char) : Option (List Char) :=
  (matchLitCI "<details>".toList l).bind fun l1 =>
  (matchLitCI "<summary>".toList (l1.dropWhile isJsWs)).bind fun l2 =>
  (matchLitCI summaryLit (l2.dropWhile isJsWs)).bind fun l3 =>
  (matchLitCI "</summary>".toList (l3.dropWhile isJsWs)).bind fun l4 =>
  lazyCaptureCI "</details>".toList l4

/-- One attempt of the fenced-block pattern inside the AI-prompt section,
review.ts:353: /```(?:suggestion)?\s*([\s\S]*?)```/ (case-sensitive). The
optional greedy "suggestion" never needs backtracking because it contains no
backtick. -/
def innerFenceTry (l : List Char) : Option (List Char) :=
  (matchLit "```".toList l).bind fun l1 =>
  let l2 :=
    match matchLit "suggestion".toList l1 with
    | some r => r
    | none => l1
  lazyCapture "```".toList (l2.dropWhile isJsWs)

/-- One attempt of the instruction-stripping pattern, review.ts:358:
/\*\*Copy this prompt.*?\*\*[\s\S]*?:/i (replaced by the empty string). -/
def copyHeaderTry (l : List Char) : Option (List Char × List Char) :=
  (matchLitCI "**Copy this prompt".toList l).bind fun l1 =>
  (lazyNoNlUntil "**".toList l1).bind fun l2 =>
  (lazyUntilChar ':' l2).map fun l3 => (([] : List Char), l3)

/-- The lazy capture of the legacy prompt pattern: grow until `\n\n##`,
`\n\n**` or end of input. -/
def oldPromptCapture : List Char → List Char
  | [] => []
  | l@(c :: rest) =>
    if (matchLit "\n\n##".toList l).isSome || (matchLit "\n\n**".toList l).isSome then []
    else c :: oldPromptCapture rest

/-- One attempt of the legacy inline prompt pattern, review.ts:362 (and the
copy handler at review.ts:1223):
/\*\*Prompt (?:for|to) (?:Fix with )?AI[^*]*\*\*:?\s*([\s\S]*?)(?:\n\n##|\n\n\*\*|$)/i.
The alternatives `for`/`to` differ in their first character and `Fix with `
cannot be a prefix of `AI`, so the preference order (left alternative first,
optional group taken when possible) is decision-free; `[^*]*` is greedy but
cannot trade characters with the following `\*\*`. -/
def oldPromptTry (l : List Char) : Option (List Char) :=
  (matchLitCI "**Prompt ".toList l).bind fun l1 =>
  (match matchLitCI "for".toList l1 with
   | some r => some r
   | none => matchLitCI "to".toList l1).bind fun l2 =>
  (matchLitCI " ".toList l2).bind fun l3 =>
  let l4 :=
    match matchLitCI "Fix with ".toList l3 with
    | some r => r
    | none => l3
  (matchLitCI "AI".toList l4).bind fun l5 =>
  let l6 := l5.dropWhile (fun c => !(c == '*'))
  (matchLit "**".toList l6).bind fun l7 =>
  let l8 :=
    match l7 with
    | ':' :: r => r
    | _ => l7
  let l9 := l8.dropWhile isJsWs
  some (oldPromptCapture l9)

/-- A marker-stripping line pattern of the description cleanup, e.g.
/\*\*File\*\*:[^\n]*\n?/gi: the marker, the rest of the line, and the line
break if present, all removed. -/
def markerLineTry (marker : List Char) (l : List Char) : Option (List Char × List Char) :=
  (matchLitCI marker l).map fun l1 =>
    let l2 := l1.dropWhile (fun c => !(c == '\n'))
    let l3 :=
      match l2 with
      | '\n' :: r => r
      | _ => l2
    (([] : List Char), l3)

/-- Global removal of a case-sensitive literal (the `[PR_COMMENT_START]` /
`[PR_COMMENT_END]` markers). -/
def litRemoveTry (lit : List Char) (l : List Char) : Option (List Char × List Char) :=
  (matchLit lit l).map (fun after => (([] : List Char), after))

/-- One attempt of /<details>[\s\S]*?<\/details>/gi (removal). -/
def detailsBlockTry (l : List Char) : Option (List Char × List Char) :=
  (matchLitCI "<details>".toList l).bind fun l1 =>
  (lazyDropCI "</details>".toList l1).map fun after => (([] : List Char), after)

/-- JS `split('\n')`. -/
def splitOnNlGo : List Char → List Char → List (List Char)
  | [], acc => [acc.reverse]
  | c :: rest, acc =>
    if c == '\n' then acc.reverse :: splitOnNlGo rest []
    else splitOnNlGo rest (c :: acc)

def splitOnNl (l : List Char) : List (List Char) := splitOnNlGo l []

/-- `parseInt` on a nonempty digit string. -/
def digitsToNat (l : List Char) : Nat :=
  l.foldl (fun acc c => acc * 10 + (c.toNat - 48)) 0

/-! ## parseCommentMetadata (review.ts lines 315-398) -/

structure ParsedComment where
  title : String
  severity : String
  lineStart : Nat
  lineEnd : Nat
  description : String
  codeBlock : String
  aiPrompt : String
deriving DecidableEq, Repr

/-- The description-cleanup chain of review.ts:367-378: strip the
`[PR_COMMENT_START]`/`[PR_COMMENT_END]` markers, the six metadata marker
lines, and every `<details>…</details>` block, then trim. -/
def stripDescription (content : List Char) : List Char :=
  let s1 := replaceScan (litRemoveTry "[PR_COMMENT_START]".toList) content.length content
  let s2 := replaceScan (litRemoveTry "[PR_COMMENT_END]".toList) s1.length s1
  let s3 := replaceScan (markerLineTry "**File**:".toList) s2.length s2
  let s4 := replaceScan (markerLineTry "**Line_Start**:".toList) s3.length s3
  let s5 := replaceScan (markerLineTry "**Line_End**:".toList) s4.length s4
  let s6 := replaceScan (markerLineTry "**Severity**:".toList) s5.length s5
  let s7 := replaceScan (markerLineTry "**Confidence**:".toList) s6.length s6
  let s8 := replaceScan (markerLineTry "**Title**:".toList) s7.length s7
  let s9 := replaceScan detailsBlockTry s8.length s8
  jsTrimL s9

/-- `parseCommentMetadata(content)` (review.ts:315-398). The source's
`genericMatches` fallback for the code block (review.ts:340-344) has an empty
body and is therefore omitted. -/
def parseCommentMetadata (content : String) : ParsedComment :=
  let l := content.toList
  -- 1. metadata markers
  let severityMatch :=
    scanFirst (fun t => (matchLitCI "**Severity**:".toList t).bind matchWsWord) l
  let lineStartMatch :=
    scanFirst (fun t => (matchLitCI "**Line_Start**:".toList t).bind matchWsDigits) l
  let lineEndMatch :=
    scanFirst (fun t => (matchLitCI "**Line_End**:".toList t).bind matchWsDigits) l
  let titleMatch :=
    scanFirst (fun t => (matchLitCI "**Title**:".toList t).bind titleCaptureTail) l
  -- 2. Suggested Fix code block
  let fixMatch := scanFirst (detailsSectionTry "Suggested Fix".toList) l
  let codeBlock :=
    match fixMatch with
    | some inner => jsTrimL inner
    | none => []
  -- 3. Prompt for AI
  let aiPromptMatch := scanFirst (detailsSectionTry "Prompt for AI".toList) l
  let aiPrompt :=
    match aiPromptMatch with
    | some inner =>
      match scanFirst innerFenceTry inner with
      | some cap => jsTrimL cap
      | none => jsTrimL (replaceFirst copyHeaderTry inner)
    | none =>
      match scanFirst oldPromptTry l with
      | some cap => jsTrimL cap
      | none => []
  -- 4. description
  let description := stripDescription l
  -- title: explicit marker, else derived from the first non-empty line
  let title0 :=
    match titleMatch with
    | some t => t
    | none => []
  let title1 :=
    if title0.isEmpty && !description.isEmpty then
      let firstLine :=
        match (splitOnNl description).find? (fun ln => !(jsTrimL ln).isEmpty) with
        | some ln => ln
        | none => []
      if firstLine.length > 60 then firstLine.take 57 ++ ['.', '.', '.'] else firstLine
    else title0
  let title2 := if title1.isEmpty then "Issue Identified".toList else title1
  { title := String.mk title2,
    severity :=
      match severityMatch with
      | some w => String.mk w
      | none => "Medium",
    lineStart :=
      match lineStartMatch with
      | some d => digitsToNat d
      | none => 0,
    lineEnd :=
      match lineEndMatch with
      | some d => digitsToNat d
      | none => 0,
    description := String.mk description,
    codeBlock := String.mk codeBlock,
    aiPrompt := String.mk aiPrompt }


/-! ## Keyboard dispatch (review.ts lines 851-1004) -/

/-- The decoded key (`readline.Key`): name plus the ctrl modifier, the only
fields the dispatcher reads. -/
structure Key where
  name : String
  ctrl : Bool
deriving DecidableEq, Repr

/-- The action returned by `handleKeypress`; `noop` is the source's `'none'`. -/
inductive KAction
  | render
  | quit
  | copy
  | noop
deriving DecidableEq, Repr

/-- `handleKeypress(state, key)` (review.ts:851-1004). The source's early
returns become one condition chain in the same order; a condition carries the
conjunction of its enclosing guards. The two plain-arrow left-panel scroll
cases are unreachable (the navigation block above them already returns for
those keys) but are kept for fidelity. -/
def handleKeypress (s : ReviewState) (k : Key) : ReviewState × KAction :=
  -- quit
  if k.name = "q" ∨ (k.ctrl ∧ k.name = "c") then (s, KAction.quit)
  -- Tab in detail mode: switch panel focus
  else if s.mode = Mode.detail ∧ k.name = "tab" then
    ({ s with focusedPanel := if s.focusedPanel = Panel.left then Panel.right else Panel.left },
      KAction.render)
  -- navigation block (mode=list, or detail with the left panel focused):
  -- ctrl-modified arrows scroll the left panel instead of moving the cursor
  else if s.mode = Mode.detail ∧ s.focusedPanel = Panel.left ∧ k.ctrl ∧
      (k.name = "up" ∨ k.name = "k") then
    ({ s with leftPanelScrollOffset := s.leftPanelScrollOffset - 1 }, KAction.render)
  else if s.mode = Mode.detail ∧ s.focusedPanel = Panel.left ∧ k.ctrl ∧
      (k.name = "down" ∨ k.name = "j") then
    ({ s with leftPanelScrollOffset := min 1000 (s.leftPanelScrollOffset + 1) }, KAction.render)
  else if (s.mode = Mode.list ∨ (s.mode = Mode.detail ∧ s.focusedPanel = Panel.left)) ∧
      (k.name = "up" ∨ k.name = "k") then
    let ns := navigateUp s
    let ns :=
      if s.mode = Mode.detail ∧
          (ns.selectedCommentIndex ≠ s.selectedCommentIndex ∨
            ns.selectedFileIndex ≠ s.selectedFileIndex) then
        { ns with detailScrollOffset := 0 }
      else ns
    (ns, KAction.render)
  else if (s.mode = Mode.list ∨ (s.mode = Mode.detail ∧ s.focusedPanel = Panel.left)) ∧
      (k.name = "down" ∨ k.name = "j") then
    let ns := navigateDown s
    let ns :=
      if s.mode = Mode.detail ∧
          (ns.selectedCommentIndex ≠ s.selectedCommentIndex ∨
            ns.selectedFileIndex ≠ s.selectedFileIndex) then
        { ns with detailScrollOffset := 0 }
      else ns
    (ns, KAction.render)
  -- detail-mode arrow scrolling, by focused panel
  else if s.mode = Mode.detail ∧ s.focusedPanel = Panel.right ∧
      (k.name = "up" ∨ k.name = "k") then
    ({ s with detailScrollOffset := s.detailScrollOffset - 1 }, KAction.render)
  else if s.mode = Mode.detail ∧ s.focusedPanel = Panel.right ∧
      (k.name = "down" ∨ k.name = "j") then
    ({ s with detailScrollOffset := s.detailScrollOffset + 1 }, KAction.render)
  else if s.mode = Mode.detail ∧ s.focusedPanel = Panel.left ∧
      (k.name = "up" ∨ k.name = "k") then
    ({ s with leftPanelScrollOffset := s.leftPanelScrollOffset - 1 }, KAction.render)
  else if s.mode = Mode.detail ∧ s.focusedPanel = Panel.left ∧
      (k.name = "down" ∨ k.name = "j") then
    ({ s with leftPanelScrollOffset := s.leftPanelScrollOffset + 1 }, KAction.render)
  -- enter detail view
  else if (k.name = "right" ∨ k.name = "return") ∧ s.selectedCommentIndex ≥ 0 ∧
      s.mode = Mode.list then
    ({ s with mode := Mode.detail, focusedPanel := Panel.right,
              detailScrollOffset := 0, leftPanelScrollOffset := 0 }, KAction.render)
  -- step back out of the detail view
  else if (k.name = "left" ∨ k.name = "escape") ∧ s.mode = Mode.detail then
    if s.focusedPanel = Panel.right then
      ({ s with focusedPanel := Panel.left }, KAction.render)
    else
      ({ s with mode := Mode.list }, KAction.render)
  -- toggle file expansion with Enter on a file header
  else if (s.mode = Mode.list ∨ (s.mode = Mode.detail ∧ s.focusedPanel = Panel.left)) ∧
      k.name = "return" ∧ s.selectedCommentIndex = -1 then
    match fileAt s.files s.selectedFileIndex with
    | some file =>
      let files := s.files.set s.selectedFileIndex.toNat { file with expanded := !file.expanded }
      let s1 := { s with files := files }
      let s1 := if !(!file.expanded) then { s1 with selectedCommentIndex := -1 } else s1
      (s1, KAction.render)
    | none => (s, KAction.render)
  -- page scrolling in detail mode
  else if s.mode = Mode.detail ∧ (k.name = "pagedown" ∨ (k.ctrl ∧ k.name = "d")) then
    if s.focusedPanel = Panel.right then
      ({ s with detailScrollOffset := s.detailScrollOffset + 10 }, KAction.render)
    else
      ({ s with leftPanelScrollOffset := s.leftPanelScrollOffset + 10 }, KAction.render)
  else if s.mode = Mode.detail ∧ (k.name = "pageup" ∨ (k.ctrl ∧ k.name = "u")) then
    if s.focusedPanel = Panel.right then
      ({ s with detailScrollOffset := s.detailScrollOffset - 10 }, KAction.render)
    else
      ({ s with leftPanelScrollOffset := s.leftPanelScrollOffset - 10 }, KAction.render)
  -- copy AI prompt
  else if k.name = "c" then (s, KAction.copy)
  else (s, KAction.noop)

/-- The side effect of the copy action (review.ts:1219-1227): look up the
selected comment and run the LEGACY inline-prompt regex directly on its raw
content; the emitted clipboard text is the trimmed capture, `none` when
nothing is copied. (For an in-range selection this is exactly the source; an
out-of-range non-negative index would make the source fault reading
`c.content`, which the in-range states the session maintains never reach, and
is modelled as no copy.) -/
def copyPromptOf (s : ReviewState) : Option String :=
  match fileAt s.files s.selectedFileIndex with
  | none => none
  | some file =>
    if s.selectedCommentIndex ≥ 0 then
      match file.comments[s.selectedCommentIndex.toNat]? with
      | some c =>
        match scanFirst oldPromptTry c.content.toList with
        | some cap => some (String.mk (jsTrimL cap))
        | none => none
      | none => none
    else none

/-- Claim C4: `parseCommentMetadata` on content carrying the Severity and
Title markers extracts them; with no recognized marker it defaults the
severity to "Medium" and derives the title from the first non-empty line,
truncating a line longer than 60 characters to 57 characters plus an
ellipsis (60 visible in total), and falls back to "Issue Identified" for an
empty description. -/
theorem C4_parse_metadata_eval :
    (parseCommentMetadata
        "**Severity**: Critical\n**Title**: Null pointer risk\nSome description here.").severity
      = "Critical" ∧
    (parseCommentMetadata
        "**Severity**: Critical\n**Title**: Null pointer risk\nSome description here.").title
      = "Null pointer risk" ∧
    (parseCommentMetadata "The first line of prose.\nMore text.").severity = "Medium" ∧
    (parseCommentMetadata "The first line of prose.\nMore text.").title
      = "The first line of prose." ∧
    (parseCommentMetadata
        "xxxxxxxxxxxxxxxxxxxxxxxxxxxxxxxxxxxxxxxxxxxxxxxxxxxxxxxxxxxxx\nrest").title
      = "xxxxxxxxxxxxxxxxxxxxxxxxxxxxxxxxxxxxxxxxxxxxxxxxxxxxxxxxx..." ∧
    (parseCommentMetadata "").severity = "Medium" ∧
    (parseCommentMetadata "").title = "Issue Identified" :=
  ⟨rfl, rfl, rfl, rfl, rfl, rfl, rfl⟩

/-- The comment and state exhibiting C6's failing input: the prompt lives in
the current `<details><summary>Prompt for AI</summary>` format with a fenced
code block, and no legacy inline marker is present. -/
def c6Comment : ReviewComment :=
  { id := "1", file_path := "a.ts", line_start := 3, line_end := 3, severity := "High",
    confidence := "", title := "t",
    content := "<details> <summary> Prompt for AI </summary>\n```\nFix the bug\n```\n</details>",
    created_at := "" }

def c6State : ReviewState :=
  { dataId := none, mode := Mode.list, focusedPanel := Panel.left,
    files := [{ filePath := "a.ts", comments := [c6Comment], expanded := true }],
    selectedFileIndex := 0, selectedCommentIndex := 0, detailScrollOffset := 0,
    leftPanelScrollOffset := 0, totalComments := 1, resolvedComments := 0,
    status := Status.running, spinnerFrame := 0 }

/-- Claim C6 (code bug): with a comment selected whose AI prompt is extractable
by the documented rules (the parser yields "Fix the bug"), the copy key does
return the `copy` action with the state unchanged, but the copy handler
re-matches only the legacy inline pattern on the raw content and therefore
emits nothing for the current prompt format. -/
theorem C6_copy_prompt_divergence :
    (parseCommentMetadata c6Comment.content).aiPrompt = "Fix the bug" ∧
    handleKeypress c6State { name := "c", ctrl := false } = (c6State, KAction.copy) ∧
    copyPromptOf c6State = none :=
  ⟨rfl, rfl, rfl⟩

def c7ListState : ReviewState :=
  { dataId := none, mode := Mode.list, focusedPanel := Panel.left,
    files := [{ filePath := "a.ts", comments := [exComment "x"], expanded := true }],
    selectedFileIndex := 0, selectedCommentIndex := -1, detailScrollOffset := 0,
    leftPanelScrollOffset := 0, totalComments := 1, resolvedComments := 0,
    status := Status.running, spinnerFrame := 0 }

def c7DetailState : ReviewState :=
  { c7ListState with mode := Mode.detail, focusedPanel := Panel.left,
                     selectedCommentIndex := 0 }

/-- Claim C7 (code bug): Tab while mode = detail toggles the focused panel and
requests a render, but Tab while mode = list matches no branch of
`handleKeypress` at all: the state — in particular the selected file's
`expanded` flag — is unchanged and the action is `none`, although the
list-view footer advertises "Tab: Expand/Collapse" (review.ts:769). -/
theorem C7_tab_eval :
    handleKeypress c7ListState { name := "tab", ctrl := false } = (c7ListState, KAction.noop) ∧
    (handleKeypress c7DetailState { name := "tab", ctrl := false }).1.focusedPanel
      = Panel.right ∧
    (handleKeypress c7DetailState { name := "tab", ctrl := false }).2 = KAction.render :=
  ⟨rfl, rfl, rfl⟩

/-! ## picocolors model and markdown formatting (review.ts lines 283-309,
400-417) -/

/-- picocolors styling with colors enabled (the session runs on a TTY):
`open ++ s ++ close`. The library's nested-close replacement inserts extra
escape codes only when a string already contains the close code; it never
changes visible lengths and does not arise for the closes used here. -/
def pcWrap (openC closeC s : String) : String := openC ++ s ++ closeC

def pcBold (s : String) : String := pcWrap "\x1B[1m" "\x1B[22m" s
def pcDim (s : String) : String := pcWrap "\x1B[2m" "\x1B[22m" s
def pcItalic (s : String) : String := pcWrap "\x1B[3m" "\x1B[23m" s
def pcRed (s : String) : String := pcWrap "\x1B[31m" "\x1B[39m" s
def pcGreen (s : String) : String := pcWrap "\x1B[32m" "\x1B[39m" s
def pcYellow (s : String) : String := pcWrap "\x1B[33m" "\x1B[39m" s
def pcBlue (s : String) : String := pcWrap "\x1B[34m" "\x1B[39m" s
def pcMagenta (s : String) : String := pcWrap "\x1B[35m" "\x1B[39m" s
def pcCyan (s : String) : String := pcWrap "\x1B[36m" "\x1B[39m" s

/-- `'c'.repeat(n)` for a single character. -/
def strRepeat (c : Char) (n : Nat) : String := String.mk (List.replicate n c)

/-- The backtick character (code fences). -/
def backtickChar : Char := Char.ofNat 96

/-- `(.*?)TERM` (no newlines, lazy): capture and the remainder after the
terminator. -/
def lazyNoNlCapture (term : List Char) : List Char → Option (List Char × List Char)
  | [] => (matchLit term []).map (fun after => (([] : List Char), after))
  | l@(c :: rest) =>
    match matchLit term l with
    | some after => some (([] : List Char), after)
    | none =>
      if c == '\n' then none
      else (lazyNoNlCapture term rest).map (fun r => (c :: r.1, r.2))

/-- Case-insensitive variant of `lazyNoNlCapture`. -/
def lazyNoNlCaptureCI (term : List Char) : List Char → Option (List Char × List Char)
  | [] => (matchLitCI term []).map (fun after => (([] : List Char), after))
  | l@(c :: rest) =>
    match matchLitCI term l with
    | some after => some (([] : List Char), after)
    | none =>
      if c == '\n' then none
      else (lazyNoNlCaptureCI term rest).map (fun r => (c :: r.1, r.2))

/-- One attempt of /\*\*(.*?)\*\*/g with the bold-styling template
`pc.bold('$1')` (review.ts:291). -/
def boldTry (l : List Char) : Option (List Char × List Char) :=
  (matchLit "**".toList l).bind fun l1 =>
  (lazyNoNlCapture "**".toList l1).map fun r =>
    ("\x1B[1m".toList ++ r.1 ++ "\x1B[22m".toList, r.2)

/-- One attempt of /\*(.*?)\*/g with the italic-styling template (review.ts:292). -/
def italicTry (l : List Char) : Option (List Char × List Char) :=
  (matchLit "*".toList l).bind fun l1 =>
  (lazyNoNlCapture "*".toList l1).map fun r =>
    ("\x1B[3m".toList ++ r.1 ++ "\x1B[23m".toList, r.2)

/-- One attempt of /\*\*(.*?)\*\*/g with the plain `'$1'` template (the
bold-marker strip of the AI-prompt cleanup, review.ts:633). -/
def boldStripTry (l : List Char) : Option (List Char × List Char) :=
  (matchLit "**".toList l).bind fun l1 =>
  (lazyNoNlCapture "**".toList l1).map fun r => (r.1, r.2)

/-- One attempt of /\*(.*?)\*/g with the plain `'$1'` template (review.ts:634). -/
def italicStripTry (l : List Char) : Option (List Char × List Char) :=
  (matchLit "*".toList l).bind fun l1 =>
  (lazyNoNlCapture "*".toList l1).map fun r => (r.1, r.2)

/-- One attempt of the inline-code pattern with the cyan-highlight callback
(review.ts:293 and 635); the capture class and the closing backtick cannot
trade characters, so the greedy run is decision-free. -/
def codeSpanTry (l : List Char) : Option (List Char × List Char) :=
  match l with
  | c :: rest =>
    if c == backtickChar then
      let cap := rest.takeWhile (fun d => !(d == backtickChar))
      if cap.isEmpty then none
      else
        match rest.drop cap.length with
        | d :: after =>
          if d == backtickChar then
            some ("\x1B[36m".toList ++ cap ++ "\x1B[39m".toList, after)
          else none
        | [] => none
    else none
  | [] => none

/-- One attempt of the link pattern /\[([^\]]+)\]\([^\)]+\)/g with the `'$1'`
template (review.ts:294). -/
def linkTry (l : List Char) : Option (List Char × List Char) :=
  match l with
  | '[' :: rest =>
    let cap := rest.takeWhile (fun d => !(d == ']'))
    if cap.isEmpty then none
    else
      match rest.drop cap.length with
      | ']' :: '(' :: rest2 =>
        let url := rest2.takeWhile (fun d => !(d == ')'))
        if url.isEmpty then none
        else
          match rest2.drop url.length with
          | ')' :: after => some (cap, after)
          | _ => none
      | _ => none
  | _ => none

/-- `text.split(/\n\n+/)` (review.ts:285): paragraphs separated by maximal
runs of at least two newlines. -/
def splitParasGo : List Char → List Char → List (List Char)
  | [], acc => [acc.reverse]
  | c :: rest, acc =>
    if c == '\n' && (match rest with | d :: _ => d == '\n' | [] => false) then
      acc.reverse :: splitParasGo (rest.dropWhile (fun d => d == '\n')) []
    else splitParasGo rest (c :: acc)
termination_by l _ => l.length
decreasing_by
  · simp only [List.length_cons]
    exact Nat.lt_succ_of_le (dropWhile_length_le _ _)
  · simp

/-- The per-paragraph replacement chain of `formatMarkdown` (review.ts:290-295):
bold, italic, inline code, links, then trim. -/
def formatPara (para : List Char) : List Char :=
  let p1 := replaceScan boldTry para.length para
  let p2 := replaceScan italicTry p1.length p1
  let p3 := replaceScan codeSpanTry p2.length p2
  let p4 := replaceScan linkTry p3.length p3
  jsTrimL p4

/-- `formatMarkdown(text, maxWidth)` (review.ts:283-309). -/
def formatMarkdown (text : String) (maxWidth : Int) : List String :=
  let paragraphs := splitParasGo text.toList []
  let result := paragraphs.flatMap (fun para =>
    (wordWrapGo maxWidth (splitWsGo (formatPara para) []) []).map String.mk ++ [""])
  match result.getLast? with
  | some "" => result.dropLast
  | _ => result

/-- `getSeverityBadge(severity)` (review.ts:400-408). -/
def getSeverityBadge (severity : String) : String :=
  match jsToLower severity with
  | "critical" => pcRed "[C]"
  | "high" => pcYellow "[H]"
  | "medium" => pcBlue "[M]"
  | "low" => pcDim "[L]"
  | _ => pcDim "[P]"

/-- `getSeverityColor(severity)` (review.ts:410-417). -/
def getSeverityColor (severity : String) : String → String :=
  match jsToLower severity with
  | "critical" => pcRed
  | "high" => pcYellow
  | "medium" => pcBlue
  | _ => pcDim

/-! ## Code syntax highlighting (review.ts lines 589-612) -/

/-- JS word-boundary `\b`: holds when exactly one neighbour is a `\w`
character (`none` = start/end of input). -/
def jsBoundary (prev next : Option Char) : Bool :=
  let pw := match prev with | some c => isJsWord c | none => false
  let nw := match next with | some c => isJsWord c | none => false
  pw != nw

/-- Position-aware global replace for boundary-sensitive patterns: `try1` gets
the previous character and returns (replacement, last matched source
character, remainder). `fuel` bounds the recursion; the input length
suffices since every step consumes at least one input character. -/
def replaceScanB (try1 : Option Char → List Char → Option (List Char × Char × List Char)) :
    Nat → Option Char → List Char → List Char
  | _, _, [] => []
  | 0, _, l => l
  | fuel + 1, prev, c :: rest =>
    match try1 prev (c :: rest) with
    | some (rep, lastC, after) => rep ++ replaceScanB try1 fuel (some lastC) after
    | none => c :: replaceScanB try1 fuel (some c) rest

/-- The body of a JS string literal for the highlight pattern
/(['"`])((?:\\.|(?!\1)[^\\])*?)\1/ (review.ts:593): lazy, closing at the first
unescaped occurrence of the opening quote; a backslash before a newline or at
the end kills the attempt. All alternative choices are forced, so no
backtracking remains. -/
def stringLitBody (q : Char) : List Char → Option (List Char)
  | [] => none
  | c :: rest =>
    if c == q then some []
    else if c == '\\' then
      match rest with
      | d :: rest2 =>
        if d == '\n' then none
        else (stringLitBody q rest2).map (fun b => c :: d :: b)
      | [] => none
    else (stringLitBody q rest).map (fun b => c :: b)

/-- One attempt of the string-literal highlight: the whole match (quotes
included) is wrapped in green. -/
def stringLitTry (_prev : Option Char) (l : List Char) :
    Option (List Char × Char × List Char) :=
  match l with
  | c :: rest =>
    if c == '\'' || c == '"' || c == backtickChar then
      (stringLitBody c rest).map (fun body =>
        ("\x1B[32m".toList ++ (c :: body ++ [c]) ++ "\x1B[39m".toList, c,
          rest.drop (body.length + 1)))
    else none
  | [] => none

/-- Trailing-boundary test for a candidate match. -/
def matchEndOk (matched rest : List Char) : Bool :=
  match matched.getLast?, rest with
  | some lc, [] => jsBoundary (some lc) none
  | some lc, n :: _ => jsBoundary (some lc) (some n)
  | none, _ => false

/-- One attempt of the number highlight /\b(\d+\.?\d*)\b/g (review.ts:596).
The greedy `\d*` (then the optional dot) backtracks from the longest
candidate until the trailing boundary holds; shrinking the leading `\d+`
can never succeed, since the following character would be another digit. -/
def numberTry (prev : Option Char) (l : List Char) :
    Option (List Char × Char × List Char) :=
  match l with
  | c :: _ =>
    if isJsDigit c && jsBoundary prev (some c) then
      let d1 := l.takeWhile isJsDigit
      let r1 := l.drop d1.length
      let cands :=
        match r1 with
        | '.' :: r2 =>
          let d2 := r2.takeWhile isJsDigit
          ((List.range (d2.length + 1)).reverse.map (fun i =>
            (d1 ++ '.' :: d2.take i, r2.drop i))) ++ [(d1, r1)]
        | _ => [(d1, r1)]
      match cands.find? (fun cand => matchEndOk cand.1 cand.2) with
      | some cand =>
        match cand.1.getLast? with
        | some lc =>
          some ("\x1B[33m".toList ++ cand.1 ++ "\x1B[39m".toList, lc, cand.2)
        | none => none
      | none => none
    else none
  | [] => none

/-- One attempt of a whole-word keyword highlight, the
`new RegExp('\\b' + kw + '\\b', 'g')` patterns of review.ts:599-603. -/
def keywordTry (kw : List Char) (prev : Option Char) (l : List Char) :
    Option (List Char × Char × List Char) :=
  match l with
  | c :: _ =>
    if jsBoundary prev (some c) then
      match matchLit kw l with
      | some after =>
        if matchEndOk kw after then
          match kw.getLast? with
          | some lc => some ("\x1B[36m".toList ++ kw ++ "\x1B[39m".toList, lc, after)
          | none => none
        else none
      | none => none
    else none
  | [] => none

def isIdentStart (c : Char) : Bool :=
  (decide ('a' ≤ c) && decide (c ≤ 'z')) || (decide ('A' ≤ c) && decide (c ≤ 'Z')) ||
  c == '_' || c == '$'

def isIdentChar (c : Char) : Bool := isIdentStart c || isJsDigit c

/-- One attempt of the call-site highlight
/\b([a-zA-Z_$][a-zA-Z0-9_$]*)\s*\(/g (review.ts:606-608); the replacement
`pc.magenta(fnName) + '('` drops the whitespace between the name and the
parenthesis. Shrinking the greedy identifier or whitespace runs can never
produce a match, so the attempt is decision-free. -/
def fnCallTry (prev : Option Char) (l : List Char) :
    Option (List Char × Char × List Char) :=
  match l with
  | c :: _ =>
    if isIdentStart c && jsBoundary prev (some c) then
      let name := l.takeWhile isIdentChar
      let r1 := l.drop name.length
      let ws := r1.takeWhile isJsWs
      match r1.drop ws.length with
      | '(' :: after =>
        some ("\x1B[35m".toList ++ name ++ "\x1B[39m".toList ++ ['('], '(', after)
      | _ => none
    else none
  | [] => none

/-- The keyword list of review.ts:599. -/
def jsKeywords : List String :=
  ["function", "const", "let", "var", "return", "if", "else", "try", "catch",
   "throw", "async", "await", "class", "extends", "import", "export", "from",
   "default"]

/-- The full highlight chain of the regular-code branch (review.ts:589-612):
strings, numbers, each keyword in order, then call sites. -/
def highlightCodeLine (l : List Char) : List Char :=
  let h1 := replaceScanB stringLitTry l.length none l
  let h2 := replaceScanB numberTry h1.length none h1
  let h3 := jsKeywords.foldl
    (fun acc kw => replaceScanB (keywordTry kw.toList) acc.length none acc) h2
  replaceScanB fnCallTry h3.length none h3

/-- `substring(indexOf(t) + 1)`: everything after the first occurrence of `t`
(the whole string when absent, as JS `indexOf` then yields `-1`). -/
def afterFirstChar (t : Char) (l : List Char) : List Char :=
  match lazyUntilChar t l with
  | some rest => rest
  | none => l

/-- The per-source-line rendering of the code block (review.ts:574-617): wrap
the line, then per wrapped piece apply the diff/suggestion/highlight branch. -/
def renderCodeWrapped (line : List Char) (width : Int) : List String :=
  let wrappedLines := wordWrapGo (width - 8) (splitWsGo line []) []
  wrappedLines.enum.map (fun wi =>
    let wrapIdx := wi.1
    let w := wi.2
    let t := jsTrimL w
    if wrapIdx = 0 ∧ t.head? = some '+' then
      pcGreen ("    + " ++ String.mk (jsTrimL (afterFirstChar '+' w)))
    else if wrapIdx = 0 ∧ t.head? = some '-' then
      pcRed ("    - " ++ String.mk (jsTrimL (afterFirstChar '-' w)))
    else if wrapIdx = 0 ∧ (matchLit "suggestion".toList t).isSome then
      pcCyan ("    " ++ String.mk w)
    else
      (if wrapIdx = 0 then "    " else "      ") ++ String.mk (highlightCodeLine w))

/-! ## Fence stripping for the code block (review.ts line 570) -/

/-- One attempt of the open-fence pattern of /^```[\w]*\n?/gm at a line
start: the fence, an optional language word and the optional line break are
removed; the Bool reports whether the newline was consumed (so the next
position is again a line start). -/
def fenceOpenTry (l : List Char) : Option (List Char × Bool) :=
  (matchLit "```".toList l).map fun l1 =>
    let l2 := l1.dropWhile isJsWord
    match l2 with
    | '\n' :: r => (r, true)
    | _ => (l2, false)

/-- `codeContent.replace(/^```[\w]*\n?/gm, '')`. -/
def stripFenceOpen : Nat → Bool → List Char → List Char
  | _, _, [] => []
  | 0, _, l => l
  | fuel + 1, atLineStart, c :: rest =>
    if atLineStart then
      match fenceOpenTry (c :: rest) with
      | some (after, endedNl) => stripFenceOpen fuel endedNl after
      | none => c :: stripFenceOpen fuel (c == '\n') rest
    else c :: stripFenceOpen fuel (c == '\n') rest

/-- End-of-line test for the `$` anchor under the `m` flag. -/
def atEol : List Char → Bool
  | [] => true
  | '\n' :: _ => true
  | _ => false

/-- One attempt of the close-fence pattern /\n?```$/gm: an optional leading
newline, three backticks, then end of line. When the position holds a
newline the fence must follow it (the no-newline alternative cannot start
with a backtick there), so the greedy option is decision-free. -/
def fenceCloseTry (l : List Char) : Option (List Char × List Char) :=
  match l with
  | '\n' :: rest =>
    match matchLit "```".toList rest with
    | some after => if atEol after then some (([] : List Char), after) else none
    | none => none
  | _ =>
    match matchLit "```".toList l with
    | some after => if atEol after then some (([] : List Char), after) else none
    | none => none

/-- Global removal of a case-insensitive literal. -/
def litRemoveTryCI (lit : List Char) (l : List Char) : Option (List Char × List Char) :=
  (matchLitCI lit l).map (fun after => (([] : List Char), after))

/-- One attempt of /<summary>.*?<\/summary>/gi (removal, no newlines in the
lazy part). -/
def summaryTagRemoveTry (l : List Char) : Option (List Char × List Char) :=
  (matchLitCI "<summary>".toList l).bind fun l1 =>
  (lazyNoNlCaptureCI "</summary>".toList l1).map fun r => (([] : List Char), r.2)

/-- One attempt of /<summary>(.*?)<\/summary>/i (capture, review.ts:555). -/
def summaryTagTry (l : List Char) : Option (List Char) :=
  (matchLitCI "<summary>".toList l).bind fun l1 =>
  (lazyNoNlCaptureCI "</summary>".toList l1).map (fun r => r.1)

/-- One attempt of the instruction-removal pattern
/Copy this prompt to your AI IDE to fix this issue locally:?/gi
(review.ts:636). -/
def copyInstrTry (l : List Char) : Option (List Char × List Char) :=
  (matchLitCI "Copy this prompt to your AI IDE to fix this issue locally".toList l).map
    fun l1 =>
      (([] : List Char), match l1 with | ':' :: r => r | _ => l1)

/-! ## Renderers (review.ts lines 423-511 and 513-662, 668-745) -/

/-- `drawScrollbar(lines, contentHeight, totalLines, scrollOffset)`
(review.ts:423-438); the float thumb arithmetic is modelled with Nat
division, which floors exactly like the source's `Math.floor`. -/
def drawScrollbar (lines : List String) (contentHeight totalLines scrollOffset : Nat) :
    List String :=
  if totalLines ≤ contentHeight then lines
  else
    let scrollbarHeight := max 1 (contentHeight * contentHeight / totalLines)
    let scrollbarStart := scrollOffset * contentHeight / totalLines
    lines.enum.map (fun li =>
      if li.1 ≥ contentHeight then li.2
      else
        let isThumb := scrollbarStart ≤ li.1 ∧ li.1 < scrollbarStart + scrollbarHeight
        li.2 ++ pcDim (if isThumb then "█" else "│"))

/-- `renderFileList(state, width, maxHeight, scrollOffset)`
(review.ts:440-511): the generated lines (scroll window applied) and the
total line count before windowing. `Math.max(0, totalLines - maxHeight)` is
Nat truncated subtraction. -/
def renderFileList (state : ReviewState) (width maxHeight scrollOffset : Nat) :
    List String × Nat :=
  let header : List String :=
    if scrollOffset = 0 then
      [pcBold "Filter: " ++ pcDim "Press / to filter files",
       pcDim (strRepeat '─' width),
       "Files / Comments " ++ toString state.resolvedComments ++ " of " ++
         toString state.totalComments ++ " comments resolved " ++
         (if state.status = Status.running then pcYellow "⟳"
          else if state.status = Status.completed then pcGreen "✓" else pcRed "✗"),
       ""]
    else []
  let fileLines : List String := state.files.enum.flatMap (fun fi =>
    let fIdx := fi.1
    let file := fi.2
    let isFileSelected :=
      (fIdx : Int) = state.selectedFileIndex ∧ state.selectedCommentIndex = -1
    let pfx := if isFileSelected then pcCyan "›" else " "
    let expandIcon := if file.expanded then "▼" else "▶"
    -- tally the comments by parsed severity
    let tally := file.comments.foldl (fun (acc : Nat × Nat × Nat) c =>
      let sev := jsToLower (parseCommentMetadata c.content).severity
      if sev = "critical" then (acc.1 + 1, acc.2.1, acc.2.2)
      else if sev = "high" then (acc.1, acc.2.1 + 1, acc.2.2)
      else (acc.1, acc.2.1, acc.2.2 + 1)) (0, 0, 0)
    let counts :=
      (if tally.1 > 0 then [pcRed (toString tally.1)] else []) ++
      (if tally.2.1 > 0 then [pcYellow (toString tally.2.1)] else []) ++
      (if tally.2.2 > 0 then [pcBlue (toString tally.2.2)] else [])
    let countStr := if counts ≠ [] then "  " ++ String.intercalate ", " counts else ""
    let pfxLen := visibleLen pfx
    let countLen := visibleLen countStr
    let availableWidth : Int := (width : Int) - pfxLen - 2 - countLen
    let fileName := truncate file.filePath (max 10 availableWidth)
    let fileLine := pfx ++ " " ++ expandIcon ++ " " ++ fileName ++ countStr
    let commentLines : List String :=
      if file.expanded then
        file.comments.enum.map (fun ci =>
          let isCommentSelected :=
            (fIdx : Int) = state.selectedFileIndex ∧
              (ci.1 : Int) = state.selectedCommentIndex
          let cPfx := if isCommentSelected then pcCyan "    ›" else "     "
          let parsed := parseCommentMetadata ci.2.content
          let badge := getSeverityBadge parsed.severity
          let cPfxLen := visibleLen cPfx
          let badgeLen := visibleLen badge
          let titleWidth : Int := (width : Int) - cPfxLen - badgeLen - 1
          let truncatedTitle := truncate parsed.title (max 10 titleWidth)
          cPfx ++ " " ++ badge ++ " " ++ truncatedTitle)
      else []
    fileLine :: commentLines)
  let lines := header ++ fileLines
  let totalLines := lines.length
  let maxScroll := totalLines - maxHeight
  let adjusted := min scrollOffset maxScroll
  ((lines.drop adjusted).take maxHeight, totalLines)

/-- `renderCommentDetail(state, width, maxHeight, scrollOffset)`
(review.ts:513-662): the generated lines (scroll window applied) and the
total line count before windowing. -/
def renderCommentDetail (state : ReviewState) (width : Int) (maxHeight scrollOffset : Nat) :
    List String × Nat :=
  let noSel : List String × Nat := ([pcDim "Select a comment to view details"], 1)
  match fileAt state.files state.selectedFileIndex with
  | none => noSel
  | some file =>
    if state.selectedCommentIndex < 0 ∨
        state.selectedCommentIndex ≥ (file.comments.length : Int) then noSel
    else
      match file.comments[state.selectedCommentIndex.toNat]? with
      | none => noSel
      | some comment =>
        let parsed := parseCommentMetadata comment.content
        let header : List String :=
          if scrollOffset = 0 then
            let lineInfo :=
              "(" ++ (if parsed.lineEnd > parsed.lineStart then "Lines" else "Line") ++
              " " ++ pcYellow (toString parsed.lineStart) ++
              (if parsed.lineEnd > parsed.lineStart then
                " to " ++ pcYellow (toString parsed.lineEnd)
               else "") ++ ")"
            let lineInfoLen := visibleLen lineInfo
            let filePathText := truncateLine file.filePath (width - 6 - lineInfoLen - 1)
            let colorFn := getSeverityColor parsed.severity
            let titleText := truncateLine parsed.title width
            ["File: " ++ pcCyan filePathText ++ " " ++ lineInfo,
             pcDim (strRepeat '─' (min width 80).toNat),
             "",
             colorFn (pcBold titleText),
             ""]
          else []
        let descLines :=
          (formatMarkdown parsed.description (width - 4)).map (fun ln => "  " ++ ln)
        let codeSection : List String :=
          if parsed.codeBlock ≠ "" then
            let cb := parsed.codeBlock.toList
            let summaryMatch := scanFirst summaryTagTry cb
            let openLines : List String :=
              match summaryMatch with
              | some summ =>
                let _summaryText := truncateLine (String.mk summ) (width - 20)
                [pcDim "  ┌─ Suggested Fix", pcDim "  │"]
              | none => []
            let t1 := replaceScan (litRemoveTryCI "<details>".toList) cb.length cb
            let t2 := replaceScan (litRemoveTryCI "</details>".toList) t1.length t1
            let t3 := replaceScan summaryTagRemoveTry t2.length t2
            let t4 := jsTrimL t3
            let t5 := stripFenceOpen t4.length true t4
            let codeContent := replaceScan fenceCloseTry t5.length t5
            let codeLines := splitOnNl codeContent
            let rendered := codeLines.flatMap (fun line => renderCodeWrapped line width)
            let closeLines : List String :=
              match summaryMatch with
              | some _ => [pcDim "  └─"]
              | none => []
            openLines ++ rendered ++ closeLines ++ [""]
          else []
        let promptSection : List String :=
          if parsed.aiPrompt ≠ "" then
            let p := parsed.aiPrompt.toList
            let p1 := replaceScan boldStripTry p.length p
            let p2 := replaceScan italicStripTry p1.length p1
            let p3 := replaceScan codeSpanTry p2.length p2
            let p4 := replaceScan copyInstrTry p3.length p3
            let cleanPrompt := jsTrimL p4
            let promptLines :=
              (wordWrapGo (width - 4) (splitWsGo cleanPrompt []) []).map String.mk
            ["", pcBold (pcYellow "┌─ Prompt to Fix with AI ✨"), pcYellow "│"] ++
            promptLines.map (fun ln => pcYellow "│ " ++ ln) ++
            [pcYellow "└─", ""]
          else []
        let lines := header ++ descLines ++ [""] ++ codeSection ++ promptSection
        let totalLines := lines.length
        let maxScroll := totalLines - maxHeight
        let adjusted := min scrollOffset maxScroll
        ((lines.drop adjusted).take maxHeight, totalLines)

def spinnerGlyphs : List String := ["⠋", "⠙", "⠹", "⠸", "⠼", "⠴", "⠦", "⠧", "⠇", "⠏"]

/-- The footer status cell of `renderSplitView` (review.ts:735-736): an
animated spinner while running, the static ":: Done" indicator otherwise. -/
def footerStatusMsg (s : ReviewState) : String :=
  if s.status = Status.running then
    pcYellow (spinnerGlyphs.getD (s.spinnerFrame % 10) "" ++ " Reviewing...")
  else pcGreen ":: Done"

/-- `renderSplitView(state)` (review.ts:668-745) as a pure function from the
state and terminal size to the printed lines and the state after the scroll
clamping of review.ts:697-700. `Math.floor(width * 0.35)` is modelled as
`width * 35 / 100`. -/
def renderSplitView (state : ReviewState) (width height : Nat) :
    List String × ReviewState :=
  let safeHeight := height - 1
  let leftWidth := width * 35 / 100
  let rightWidth : Int := (width : Int) - leftWidth - 3
  let contentHeight := safeHeight - 5
  let leftHeader :=
    if state.focusedPanel = Panel.left then pcCyan (pcBold "▶ FILES / COMMENTS")
    else pcDim "FILES / COMMENTS"
  let rightHeader :=
    if state.focusedPanel = Panel.right then pcCyan (pcBold "▶ COMMENT DETAILS")
    else pcDim "COMMENT DETAILS"
  let leftHeaderTruncated := truncateLine leftHeader (leftWidth : Int)
  let rightHeaderTruncated := truncateLine rightHeader rightWidth
  let headerLine :=
    padAnsi leftHeaderTruncated (leftWidth : Int) ++ " " ++ pcDim "│" ++ " " ++
      rightHeaderTruncated
  let divider := pcDim (strRepeat '─' width)
  let leftResult := renderFileList state leftWidth contentHeight state.leftPanelScrollOffset
  let rightResult :=
    renderCommentDetail state rightWidth contentHeight state.detailScrollOffset
  let leftMaxScroll := leftResult.2 - contentHeight
  let rightMaxScroll := rightResult.2 - contentHeight
  let state' := { state with
    leftPanelScrollOffset := min state.leftPanelScrollOffset leftMaxScroll,
    detailScrollOffset := min state.detailScrollOffset rightMaxScroll }
  let leftWithScroll :=
    drawScrollbar leftResult.1 contentHeight leftResult.2 state'.leftPanelScrollOffset
  let rightWithScroll :=
    drawScrollbar rightResult.1 contentHeight rightResult.2 state'.detailScrollOffset
  let maxLines := max (max leftResult.1.length rightResult.1.length) contentHeight
  let rows := (List.range (min maxLines contentHeight)).map (fun i =>
    let leftRaw := leftWithScroll.getD i ""
    let leftTruncated := truncateLine leftRaw (leftWidth : Int)
    let left := padAnsi leftTruncated (leftWidth : Int)
    let rightRaw := rightWithScroll.getD i ""
    let right :=
      if (visibleLen rightRaw : Int) > rightWidth then truncateLine rightRaw rightWidth
      else rightRaw
    let dividerCell :=
      if state.focusedPanel = Panel.left then pcCyan "│"
      else if state.focusedPanel = Panel.right then pcCyan "│"
      else pcDim "│"
    let rightPadded := padAnsi right rightWidth
    left ++ " " ++ dividerCell ++ " " ++ rightPadded)
  let scrollHint :=
    if state.focusedPanel = Panel.left then
      pcDim "↑↓: Navigate" ++ "  |  " ++ pcDim "PgUp/PgDn: Scroll Left Panel"
    else
      pcDim "↑↓: Scroll Right Panel" ++ "  |  " ++ pcDim "PgUp/PgDn: Scroll Right Panel"
  let footer1 :=
    scrollHint ++ "  |  " ++ pcDim "Tab: Switch Panel" ++ "  |  " ++
      pcDim "Mouse: Scroll/Click"
  let footer2 :=
    pcDim "←/Esc: Back" ++ "  |  " ++ pcDim "c: Copy" ++ "  |  " ++ pcDim "q: Quit" ++
      "  |  " ++ footerStatusMsg state
  let footer1Trunc := truncateLine footer1 (width : Int)
  let footer2Trunc := truncateLine footer2 (width : Int)
  ([headerLine, divider] ++ rows ++ [divider, footer1Trunc, footer2Trunc], state')

/-- Claim C3 (the split view is the render path that stores scroll offsets):
after `renderSplitView` completes, each panel's stored offset is clamped to
`[0, max(0, totalLines − viewportHeight)]` (the lower bound is inherent in
the Nat embedding, which is exact because every handler write is of the form
`Math.max(0, …)`), where totalLines is the full rendered content length this
render computed for the panel at the current terminal size. The height
hypothesis keeps the JS `height - 1 - 5` non-negative so that the Nat
embedding coincides with the source. -/
theorem C3_render_clamps_offsets (s : ReviewState) (width height : Nat)
    (hh : 6 ≤ height) :
    (renderSplitView s width height).2.leftPanelScrollOffset ≤
      max 0 ((renderFileList s (width * 35 / 100) (height - 1 - 5)
        s.leftPanelScrollOffset).2 - (height - 1 - 5)) ∧
    (renderSplitView s width height).2.detailScrollOffset ≤
      max 0 ((renderCommentDetail s ((width : Int) - width * 35 / 100 - 3)
        (height - 1 - 5) s.detailScrollOffset).2 - (height - 1 - 5)) := by
  unfold renderSplitView
  dsimp only
  constructor
  · exact le_trans (Nat.min_le_right _ _) (Nat.le_max_right _ _)
  · exact le_trans (Nat.min_le_right _ _) (Nat.le_max_right _ _)

/-- State for the C3 witness: deliberately over-scrolled offsets. -/
def c3State : ReviewState :=
  { dataId := none, mode := Mode.detail, focusedPanel := Panel.right,
    files := [],
    selectedFileIndex := 0, selectedCommentIndex := 0, detailScrollOffset := 7,
    leftPanelScrollOffset := 5, totalComments := 0, resolvedComments := 0,
    status := Status.running, spinnerFrame := 0 }

theorem C3_render_clamps_offsets_witness :
    6 ≤ 7 ∧
    ((renderSplitView c3State 10 7).2.leftPanelScrollOffset ≤
      max 0 ((renderFileList c3State (10 * 35 / 100) (7 - 1 - 5)
        c3State.leftPanelScrollOffset).2 - (7 - 1 - 5)) ∧
     (renderSplitView c3State 10 7).2.detailScrollOffset ≤
      max 0 ((renderCommentDetail c3State ((10 : Int) - 10 * 35 / 100 - 3)
        (7 - 1 - 5) c3State.detailScrollOffset).2 - (7 - 1 - 5))) :=
  ⟨by decide, C3_render_clamps_offsets c3State 10 7 (by decide)⟩

/-! ## Event loop and timers (review.ts lines 1124-1232) -/

/-- The session-level state of `runReviewSession`: the review state plus
whether the poll and UI-tick interval timers are still installed
(`clearInterval` not yet called on them). -/
structure SessionState where
  rs : ReviewState
  pollActive : Bool
  uiActive : Bool
deriving DecidableEq, Repr

/-- One firing of the poll interval callback (review.ts:1124-1139) with the
results it received: merge any new comments, then fetch the status and — when
it is no longer `running` — store it and `clearInterval(pollTimer)`. A
cleared timer no longer fires, which the `pollActive` guard models. -/
def pollStep (s : SessionState) (newComments : List ReviewComment) (st : Status) :
    SessionState :=
  if s.pollActive then
    let rs1 := if newComments.length > 0 then addComments s.rs newComments else s.rs
    if st ≠ Status.running then
      { s with rs := { rs1 with status := st }, pollActive := false }
    else { s with rs := rs1 }
  else s

/-- One firing of the UI tick callback (review.ts:1141-1146): advance the
spinner and re-render only while the status is `running`. The interval itself
stays installed until the quit cleanup (review.ts:1165). -/
def uiTickStep (s : SessionState) : SessionState :=
  if s.uiActive then
    if s.rs.status = Status.running then
      { s with rs := { s.rs with spinnerFrame := s.rs.spinnerFrame + 1 } }
    else s
  else s

/-- One keyboard event (review.ts:1212-1228): dispatch through
`handleKeypress`; the quit action runs the cleanup, which clears both timers
(review.ts:1164-1165). -/
def keyStep (s : SessionState) (k : Key) : SessionState :=
  let r := handleKeypress s.rs k
  match r.2 with
  | KAction.quit => { rs := r.1, pollActive := false, uiActive := false }
  | _ => { s with rs := r.1 }

/-- A mouse wheel event (review.ts:1186-1197): scroll the panel under the
pointer column by ±3 lines, clamped at 0. -/
def wheelStep (s : SessionState) (isUp : Bool) (x width : Nat) : SessionState :=
  let leftWidth := width * 35 / 100
  if x ≤ leftWidth then
    { s with rs := { s.rs with leftPanelScrollOffset :=
        if isUp then s.rs.leftPanelScrollOffset - 3
        else s.rs.leftPanelScrollOffset + 3 } }
  else
    { s with rs := { s.rs with detailScrollOffset :=
        if isUp then s.rs.detailScrollOffset - 3
        else s.rs.detailScrollOffset + 3 } }

/-- A left-click release (review.ts:1200-1208): in detail mode, focus the
panel under the pointer column. -/
def clickStep (s : SessionState) (x width : Nat) : SessionState :=
  let leftWidth := width * 35 / 100
  if s.rs.mode = Mode.detail then
    { s with rs := { s.rs with focusedPanel :=
        if x ≤ leftWidth then Panel.left else Panel.right } }
  else s

/-- The asynchronous inputs the event loop serialises. -/
inductive SEvent
  | uiTick
  | poll (cs : List ReviewComment) (st : Status)
  | key (k : Key)
  | wheel (isUp : Bool) (x width : Nat)
  | click (x width : Nat)
deriving DecidableEq, Repr

def stepEvent (s : SessionState) : SEvent → SessionState
  | SEvent.uiTick => uiTickStep s
  | SEvent.poll cs st => pollStep s cs st
  | SEvent.key k => keyStep s k
  | SEvent.wheel u x w => wheelStep s u x w
  | SEvent.click x w => clickStep s x w

def runEvents (s : SessionState) (evs : List SEvent) : SessionState :=
  evs.foldl stepEvent s

theorem resetDetailScroll_status_spinner (s : ReviewState) :
    (resetDetailScroll s).status = s.status ∧
    (resetDetailScroll s).spinnerFrame = s.spinnerFrame := by
  unfold resetDetailScroll
  split <;> exact ⟨rfl, rfl⟩

theorem navigateUp_status_spinner (s : ReviewState) :
    (navigateUp s).status = s.status ∧ (navigateUp s).spinnerFrame = s.spinnerFrame := by
  unfold navigateUp
  rw [(resetDetailScroll_status_spinner _).1, (resetDetailScroll_status_spinner _).2]
  repeat' split
  all_goals exact ⟨rfl, rfl⟩

theorem navigateDown_status_spinner (s : ReviewState) :
    (navigateDown s).status = s.status ∧
    (navigateDown s).spinnerFrame = s.spinnerFrame := by
  unfold navigateDown
  cases fileAt s.files s.selectedFileIndex <;> dsimp only
  case none => exact ⟨rfl, rfl⟩
  case some =>
    rw [(resetDetailScroll_status_spinner _).1, (resetDetailScroll_status_spinner _).2]
    repeat' split
    all_goals exact ⟨rfl, rfl⟩

/-- `handleKeypress` never touches `status` or `spinnerFrame`: only the timer
callbacks do. -/
theorem handleKeypress_status_spinner (s : ReviewState) (k : Key) :
    (handleKeypress s k).1.status = s.status ∧
    (handleKeypress s k).1.spinnerFrame = s.spinnerFrame := by
  unfold handleKeypress
  by_cases h1 : k.name = "q" ∨ (k.ctrl ∧ k.name = "c")
  · rw [if_pos h1]; exact ⟨rfl, rfl⟩
  rw [if_neg h1]
  by_cases h2 : s.mode = Mode.detail ∧ k.name = "tab"
  · rw [if_pos h2]; exact ⟨rfl, rfl⟩
  rw [if_neg h2]
  by_cases h3 : s.mode = Mode.detail ∧ s.focusedPanel = Panel.left ∧ k.ctrl ∧
      (k.name = "up" ∨ k.name = "k")
  · rw [if_pos h3]; exact ⟨rfl, rfl⟩
  rw [if_neg h3]
  by_cases h4 : s.mode = Mode.detail ∧ s.focusedPanel = Panel.left ∧ k.ctrl ∧
      (k.name = "down" ∨ k.name = "j")
  · rw [if_pos h4]; exact ⟨rfl, rfl⟩
  rw [if_neg h4]
  by_cases h5 : (s.mode = Mode.list ∨ (s.mode = Mode.detail ∧ s.focusedPanel = Panel.left)) ∧
      (k.name = "up" ∨ k.name = "k")
  · rw [if_pos h5]
    dsimp only
    split <;> exact ⟨(navigateUp_status_spinner s).1, (navigateUp_status_spinner s).2⟩
  rw [if_neg h5]
  by_cases h6 : (s.mode = Mode.list ∨ (s.mode = Mode.detail ∧ s.focusedPanel = Panel.left)) ∧
      (k.name = "down" ∨ k.name = "j")
  · rw [if_pos h6]
    dsimp only
    split <;> exact ⟨(navigateDown_status_spinner s).1, (navigateDown_status_spinner s).2⟩
  rw [if_neg h6]
  by_cases h7 : s.mode = Mode.detail ∧ s.focusedPanel = Panel.right ∧
      (k.name = "up" ∨ k.name = "k")
  · rw [if_pos h7]; exact ⟨rfl, rfl⟩
  rw [if_neg h7]
  by_cases h8 : s.mode = Mode.detail ∧ s.focusedPanel = Panel.right ∧
      (k.name = "down" ∨ k.name = "j")
  · rw [if_pos h8]; exact ⟨rfl, rfl⟩
  rw [if_neg h8]
  by_cases h9 : s.mode = Mode.detail ∧ s.focusedPanel = Panel.left ∧
      (k.name = "up" ∨ k.name = "k")
  · rw [if_pos h9]; exact ⟨rfl, rfl⟩
  rw [if_neg h9]
  by_cases h10 : s.mode = Mode.detail ∧ s.focusedPanel = Panel.left ∧
      (k.name = "down" ∨ k.name = "j")
  · rw [if_pos h10]; exact ⟨rfl, rfl⟩
  rw [if_neg h10]
  by_cases h11 : (k.name = "right" ∨ k.name = "return") ∧ s.selectedCommentIndex ≥ 0 ∧
      s.mode = Mode.list
  · rw [if_pos h11]; exact ⟨rfl, rfl⟩
  rw [if_neg h11]
  by_cases h12 : (k.name = "left" ∨ k.name = "escape") ∧ s.mode = Mode.detail
  · rw [if_pos h12]
    split <;> exact ⟨rfl, rfl⟩
  rw [if_neg h12]
  by_cases h13 : (s.mode = Mode.list ∨ (s.mode = Mode.detail ∧ s.focusedPanel = Panel.left)) ∧
      k.name = "return" ∧ s.selectedCommentIndex = -1
  · rw [if_pos h13]
    cases fileAt s.files s.selectedFileIndex <;> dsimp only <;>
      first
        | exact ⟨rfl, rfl⟩
        | (split <;> exact ⟨rfl, rfl⟩)
  rw [if_neg h13]
  by_cases h14 : s.mode = Mode.detail ∧ (k.name = "pagedown" ∨ (k.ctrl ∧ k.name = "d"))
  · rw [if_pos h14]
    split <;> exact ⟨rfl, rfl⟩
  rw [if_neg h14]
  by_cases h15 : s.mode = Mode.detail ∧ (k.name = "pageup" ∨ (k.ctrl ∧ k.name = "u"))
  · rw [if_pos h15]
    split <;> exact ⟨rfl, rfl⟩
  rw [if_neg h15]
  by_cases h16 : k.name = "c"
  · rw [if_pos h16]; exact ⟨rfl, rfl⟩
  rw [if_neg h16]
  exact ⟨rfl, rfl⟩

/-- Once the poll timer is cleared and the status is terminal, no further
event changes the status or the spinner, and the poll timer stays cleared. -/
theorem runEvents_terminal (s : SessionState) (hst : s.rs.status ≠ Status.running)
    (hp : s.pollActive = false) (evs : List SEvent) :
    (runEvents s evs).rs.status = s.rs.status ∧
    (runEvents s evs).rs.spinnerFrame = s.rs.spinnerFrame ∧
    (runEvents s evs).pollActive = false := by
  induction evs generalizing s with
  | nil => exact ⟨rfl, rfl, hp⟩
  | cons e rest ih =>
    have hstep : (stepEvent s e).rs.status = s.rs.status ∧
        (stepEvent s e).rs.spinnerFrame = s.rs.spinnerFrame ∧
        (stepEvent s e).pollActive = false := by
      cases e with
      | uiTick =>
        unfold stepEvent uiTickStep
        dsimp only
        rw [if_neg hst, ite_self]
        exact ⟨rfl, rfl, hp⟩
      | poll cs st =>
        unfold stepEvent pollStep
        dsimp only
        rw [if_neg (by rw [hp]; exact Bool.false_ne_true)]
        exact ⟨rfl, rfl, hp⟩
      | key k =>
        unfold stepEvent keyStep
        dsimp only
        split
        · exact ⟨(handleKeypress_status_spinner s.rs k).1,
            (handleKeypress_status_spinner s.rs k).2, rfl⟩
        · exact ⟨(handleKeypress_status_spinner s.rs k).1,
            (handleKeypress_status_spinner s.rs k).2, hp⟩
      | wheel u x w =>
        unfold stepEvent wheelStep
        dsimp only
        split <;> exact ⟨rfl, rfl, hp⟩
      | click x w =>
        unfold stepEvent clickStep
        dsimp only
        split <;> exact ⟨rfl, rfl, hp⟩
    have ih2 := ih (stepEvent s e) (by rw [hstep.1]; exact hst) hstep.2.2
    have hrun : runEvents s (e :: rest) = runEvents (stepEvent s e) rest := rfl
    rw [hrun]
    exact ⟨ih2.1.trans hstep.1, ih2.2.1.trans hstep.2.1, ih2.2.2⟩

/-- Claim C9 (amended): once a poll callback observes a non-running analysis
status, the poll timer is cleared (no further poll result is ever processed),
the stored status becomes that terminal status, and the footer renders the
static ":: Done" indicator instead of the animated spinner; under every
further sequence of UI ticks, polls, keys, wheel and click events,
`spinnerFrame` never advances and the poll timer stays cleared. (The UI tick
interval itself, however, is NOT stopped — see the counterexample — its
callback merely becomes a no-op while the status is terminal.) -/
theorem C9_poll_stop_amended (s : SessionState) (cs : List ReviewComment)
    (st : Status) (hrun : s.pollActive = true) (hst : st ≠ Status.running)
    (evs : List SEvent) :
    (pollStep s cs st).pollActive = false ∧
    (pollStep s cs st).rs.status = st ∧
    footerStatusMsg (pollStep s cs st).rs = pcGreen ":: Done" ∧
    (runEvents (pollStep s cs st) evs).rs.spinnerFrame =
      (pollStep s cs st).rs.spinnerFrame ∧
    (runEvents (pollStep s cs st) evs).rs.status = st ∧
    (runEvents (pollStep s cs st) evs).pollActive = false := by
  have hps : pollStep s cs st =
      { s with
        rs := { (if cs.length > 0 then addComments s.rs cs else s.rs) with status := st },
        pollActive := false } := by
    unfold pollStep
    rw [if_pos hrun, if_pos hst]
  have h1 : (pollStep s cs st).pollActive = false := by rw [hps]
  have h2 : (pollStep s cs st).rs.status = st := by rw [hps]
  have h3 : footerStatusMsg (pollStep s cs st).rs = pcGreen ":: Done" := by
    unfold footerStatusMsg
    rw [if_neg (by rw [h2]; exact hst)]
  have hterm := runEvents_terminal (pollStep s cs st) (by rw [h2]; exact hst) h1 evs
  exact ⟨h1, h2, h3, hterm.2.1, hterm.1.trans h2, hterm.2.2⟩

/-- A running session with both interval timers installed. -/
def c9Session : SessionState :=
  { rs := { dataId := none, mode := Mode.list, focusedPanel := Panel.left, files := [],
            selectedFileIndex := 0, selectedCommentIndex := -1, detailScrollOffset := 0,
            leftPanelScrollOffset := 0, totalComments := 0, resolvedComments := 0,
            status := Status.running, spinnerFrame := 4 },
    pollActive := true, uiActive := true }

/-- Counterexample to claim C9 as stated: when the polled status transitions
from `running` to a terminal value, the UI tick timer is NOT stopped —
`clearInterval(uiTimer)` is only ever called from the quit cleanup — so the
tick interval remains installed even though the session is terminal. -/
theorem C9_poll_stop_counterexample :
    c9Session.rs.status = Status.running ∧ c9Session.pollActive = true ∧
    (pollStep c9Session [] Status.completed).rs.status = Status.completed ∧
    (pollStep c9Session [] Status.completed).pollActive = false ∧
    (pollStep c9Session [] Status.completed).uiActive = true :=
  ⟨rfl, rfl, rfl, rfl, rfl⟩

theorem C9_poll_stop_amended_witness :
    (c9Session.pollActive = true ∧ Status.completed ≠ Status.running) ∧
    ((pollStep c9Session [] Status.completed).pollActive = false ∧
     (pollStep c9Session [] Status.completed).rs.status = Status.completed ∧
     footerStatusMsg (pollStep c9Session [] Status.completed).rs = pcGreen ":: Done" ∧
     (runEvents (pollStep c9Session [] Status.completed)
        [SEvent.uiTick, SEvent.uiTick]).rs.spinnerFrame =
       (pollStep c9Session [] Status.completed).rs.spinnerFrame ∧
     (runEvents (pollStep c9Session [] Status.completed)
        [SEvent.uiTick, SEvent.uiTick]).rs.status = Status.completed ∧
     (runEvents (pollStep c9Session [] Status.completed)
        [SEvent.uiTick, SEvent.uiTick]).pollActive = false) :=
  ⟨⟨rfl, by decide⟩,
    C9_poll_stop_amended c9Session [] Status.completed rfl (by decide)
      [SEvent.uiTick, SEvent.uiTick]⟩

/-! ## Well-formed ANSI color text and the truncation bounds (claim C5) -/

/-- Well-formed ANSI color text: every ESC character begins a complete color
escape of the form ESC `[[0-9;]*m` — exactly the escapes `stripAnsi`
recognizes and the picocolors wrappers emit. -/
def properAnsi : List Char → Bool
  | [] => true
  | c :: rest =>
    if c == escChar then
      match h : parseColorSeq rest with
      | some rest' => properAnsi rest'
      | none => false
    else properAnsi rest
termination_by l => l.length
decreasing_by
  · simp only [List.length_cons]
    exact Nat.lt_succ_of_lt (parseColorSeq_length h)
  · simp

theorem stripAnsiL_nil : stripAnsiL [] = [] := by simp [stripAnsiL]

theorem stripAnsiL_esc {rest rest' : List Char} (h : parseColorSeq rest = some rest') :
    stripAnsiL (escChar :: rest) = stripAnsiL rest' := by
  simp only [stripAnsiL]
  rw [if_pos (beq_self_eq_true escChar)]
  split
  · rename_i r hr
    rw [h] at hr
    cases hr
    rfl
  · rename_i hr
    rw [h] at hr
    cases hr

theorem stripAnsiL_cons_ne {c : Char} (hc : (c == escChar) = false) (rest : List Char) :
    stripAnsiL (c :: rest) = c :: stripAnsiL rest := by
  simp only [stripAnsiL]
  rw [if_neg (by simp [hc])]

theorem properAnsi_nil : properAnsi [] = true := by simp [properAnsi]

theorem properAnsi_esc {rest rest' : List Char} (h : parseColorSeq rest = some rest') :
    properAnsi (escChar :: rest) = properAnsi rest' := by
  simp only [properAnsi]
  rw [if_pos (beq_self_eq_true escChar)]
  split
  · rename_i r hr
    rw [h] at hr
    cases hr
    rfl
  · rename_i hr
    rw [h] at hr
    cases hr

theorem properAnsi_esc_none {rest : List Char} (h : parseColorSeq rest = none) :
    properAnsi (escChar :: rest) = false := by
  simp only [properAnsi]
  rw [if_pos (beq_self_eq_true escChar)]
  split
  · rename_i r hr
    rw [h] at hr
    cases hr
  · rfl

theorem properAnsi_cons_ne {c : Char} (hc : (c == escChar) = false) (rest : List Char) :
    properAnsi (c :: rest) = properAnsi rest := by
  simp only [properAnsi]
  rw [if_neg (by simp [hc])]

theorem properAnsi_esc_elim {rest : List Char} (h : properAnsi (escChar :: rest) = true) :
    ∃ rest', parseColorSeq rest = some rest' ∧ properAnsi rest' = true := by
  cases hpc : parseColorSeq rest with
  | some r =>
    refine ⟨r, rfl, ?_⟩
    rw [properAnsi_esc hpc] at h
    exact h
  | none =>
    rw [properAnsi_esc_none hpc] at h
    cases h

theorem parseColorSeqGo_append {l r : List Char} (h : parseColorSeqGo l = some r)
    (b : List Char) : parseColorSeqGo (l ++ b) = some (r ++ b) := by
  induction l with
  | nil => simp [parseColorSeqGo] at h
  | cons c rest ih =>
    simp only [parseColorSeqGo, List.cons_append] at h ⊢
    by_cases hm : c == 'm'
    · rw [if_pos hm] at h ⊢
      cases h
      rfl
    · rw [if_neg hm] at h ⊢
      by_cases hs : (c == ';' || isJsDigit c) = true
      · rw [if_pos hs] at h ⊢
        exact ih h
      · rw [if_neg hs] at h
        cases h

theorem parseColorSeq_append {l r : List Char} (h : parseColorSeq l = some r)
    (b : List Char) : parseColorSeq (l ++ b) = some (r ++ b) := by
  cases l with
  | nil => simp [parseColorSeq] at h
  | cons c rest =>
    simp only [parseColorSeq, List.cons_append] at h ⊢
    by_cases hb : c == '['
    · rw [if_pos hb] at h ⊢
      exact parseColorSeqGo_append h b
    · rw [if_neg hb] at h
      cases h

theorem properAnsi_append_fuel :
    ∀ (n : Nat) (a b : List Char), a.length ≤ n → properAnsi a = true →
      properAnsi b = true → properAnsi (a ++ b) = true := by
  intro n
  induction n with
  | zero =>
    intro a b hn ha hb
    have ha0 : a = [] := List.eq_nil_of_length_eq_zero (Nat.le_zero.mp hn)
    subst ha0
    simpa using hb
  | succ n ih =>
    intro a b hn ha hb
    cases a with
    | nil => simpa using hb
    | cons c rest =>
      by_cases hc : c == escChar
      · have hceq : c = escChar := beq_iff_eq.mp hc
        subst hceq
        obtain ⟨r, hpc, hpr⟩ := properAnsi_esc_elim ha
        rw [List.cons_append, properAnsi_esc (parseColorSeq_append hpc b)]
        have hrlen : r.length ≤ n := by
          have h1 := parseColorSeq_length hpc
          simp only [List.length_cons] at hn
          omega
        exact ih r b hrlen hpr hb
      · have hc' : (c == escChar) = false := by
          rwa [Bool.not_eq_true] at hc
        rw [properAnsi_cons_ne hc'] at ha
        rw [List.cons_append, properAnsi_cons_ne hc']
        exact ih rest b (by simp only [List.length_cons] at hn; omega) ha hb

theorem properAnsi_append {a b : List Char} (ha : properAnsi a = true)
    (hb : properAnsi b = true) : properAnsi (a ++ b) = true :=
  properAnsi_append_fuel a.length a b (le_refl _) ha hb

theorem stripAnsiL_append_fuel :
    ∀ (n : Nat) (a b : List Char), a.length ≤ n → properAnsi a = true →
      stripAnsiL (a ++ b) = stripAnsiL a ++ stripAnsiL b := by
  intro n
  induction n with
  | zero =>
    intro a b hn _
    have ha0 : a = [] := List.eq_nil_of_length_eq_zero (Nat.le_zero.mp hn)
    subst ha0
    simp [stripAnsiL_nil]
  | succ n ih =>
    intro a b hn ha
    cases a with
    | nil => simp [stripAnsiL_nil]
    | cons c rest =>
      by_cases hc : c == escChar
      · have hceq : c = escChar := beq_iff_eq.mp hc
        subst hceq
        obtain ⟨r, hpc, hpr⟩ := properAnsi_esc_elim ha
        rw [List.cons_append, stripAnsiL_esc (parseColorSeq_append hpc b),
          stripAnsiL_esc hpc]
        have hrlen : r.length ≤ n := by
          have h1 := parseColorSeq_length hpc
          simp only [List.length_cons] at hn
          omega
        exact ih r b hrlen hpr
      · have hc' : (c == escChar) = false := by
          rwa [Bool.not_eq_true] at hc
        have ha' : properAnsi rest = true := by
          rwa [properAnsi_cons_ne hc'] at ha
        rw [List.cons_append, stripAnsiL_cons_ne hc', stripAnsiL_cons_ne hc',
          ih rest b (by simp only [List.length_cons] at hn; omega) ha']
        simp

theorem stripAnsiL_append_proper {a : List Char} (ha : properAnsi a = true)
    (b : List Char) : stripAnsiL (a ++ b) = stripAnsiL a ++ stripAnsiL b :=
  stripAnsiL_append_fuel a.length a b (le_refl _) ha

theorem parseColorSeqGo_decomp {l r : List Char} (h : parseColorSeqGo l = some r) :
    ∃ mid, l = mid ++ 'm' :: r ∧
      ∀ c ∈ mid, (c == 'm') = false ∧ (c == ';' || isJsDigit c) = true := by
  induction l with
  | nil => simp [parseColorSeqGo] at h
  | cons c rest ih =>
    simp only [parseColorSeqGo] at h
    by_cases hm : c == 'm'
    · rw [if_pos hm] at h
      cases h
      have hceq : c = 'm' := beq_iff_eq.mp hm
      subst hceq
      exact ⟨[], rfl, by simp⟩
    · rw [if_neg hm] at h
      by_cases hs : (c == ';' || isJsDigit c) = true
      · rw [if_pos hs] at h
        obtain ⟨mid, hm1, hm2⟩ := ih h
        refine ⟨c :: mid, by rw [hm1]; rfl, ?_⟩
        intro x hx
        rcases List.mem_cons.mp hx with hxc | hxm
        · subst hxc
          exact ⟨by rwa [Bool.not_eq_true] at hm, hs⟩
        · exact hm2 x hxm
      · rw [if_neg hs] at h
        cases h

theorem parseColorSeq_decomp {l r : List Char} (h : parseColorSeq l = some r) :
    ∃ mid, l = '[' :: (mid ++ 'm' :: r) ∧
      ∀ c ∈ mid, (c == 'm') = false ∧ (c == ';' || isJsDigit c) = true := by
  cases l with
  | nil => simp [parseColorSeq] at h
  | cons c rest =>
    simp only [parseColorSeq] at h
    by_cases hb : c == '['
    · rw [if_pos hb] at h
      have hceq : c = '[' := beq_iff_eq.mp hb
      subst hceq
      obtain ⟨mid, h1, h2⟩ := parseColorSeqGo_decomp h
      exact ⟨mid, by rw [h1], h2⟩
    · rw [if_neg hb] at h
      cases h

theorem parseColorSeqGo_of_mid {mid : List Char}
    (hmid : ∀ c ∈ mid, (c == 'm') = false ∧ (c == ';' || isJsDigit c) = true)
    (tail : List Char) : parseColorSeqGo (mid ++ 'm' :: tail) = some tail := by
  induction mid with
  | nil => simp [parseColorSeqGo]
  | cons c mid ih =>
    have hc := hmid c (List.mem_cons_self c mid)
    simp only [List.cons_append, parseColorSeqGo]
    rw [if_neg (by simp [hc.1]), if_pos hc.2]
    exact ih (fun x hx => hmid x (List.mem_cons_of_mem c hx))

theorem seqChar_ne_esc {c : Char} (h : (c == ';' || isJsDigit c) = true) :
    (c == escChar) = false := by
  have h' : (c == ';') = true ∨ isJsDigit c = true := by simpa using h
  rcases h' with h1 | h2
  · have hceq : c = ';' := beq_iff_eq.mp h1
    subst hceq
    decide
  · simp only [isJsDigit, Bool.and_eq_true, decide_eq_true_eq] at h2
    apply beq_eq_false_iff_ne.mpr
    intro hce
    subst hce
    exact absurd h2.1 (by decide)

theorem truncLoop_nil (limit : Int) (cnt : Nat) (inA : Bool) (aStart : Option Nat)
    (result : List Char) :
    truncLoop limit [] cnt inA aStart result = (result, cnt, inA, aStart) := rfl

theorem truncLoop_step_stop (limit : Int) (c : Char) (rest : List Char) (cnt : Nat)
    (hcnt : ¬ ((cnt : Int) < limit)) (inA : Bool) (aStart : Option Nat)
    (result : List Char) :
    truncLoop limit (c :: rest) cnt inA aStart result = (result, cnt, inA, aStart) := by
  simp only [truncLoop]
  rw [if_neg hcnt]

theorem truncLoop_step_esc (limit : Int) (rest : List Char) (cnt : Nat)
    (hcnt : (cnt : Int) < limit) (inA : Bool) (aStart : Option Nat)
    (result : List Char) :
    truncLoop limit (escChar :: rest) cnt inA aStart result
      = truncLoop limit rest cnt true (some result.length) (result ++ [escChar]) := by
  simp only [truncLoop]
  rw [if_pos hcnt, if_pos (beq_self_eq_true escChar)]

theorem truncLoop_step_inA (limit : Int) {c : Char} (hc : (c == escChar) = false)
    (hm : (c == 'm') = false) (rest : List Char) (cnt : Nat)
    (hcnt : (cnt : Int) < limit) (aStart : Option Nat) (result : List Char) :
    truncLoop limit (c :: rest) cnt true aStart result
      = truncLoop limit rest cnt true aStart (result ++ [c]) := by
  simp only [truncLoop]
  rw [if_pos hcnt, if_neg (by simp [hc]), if_pos trivial, if_neg (by simp [hm])]

theorem truncLoop_step_m (limit : Int) (rest : List Char) (cnt : Nat)
    (hcnt : (cnt : Int) < limit) (aStart : Option Nat) (result : List Char) :
    truncLoop limit ('m' :: rest) cnt true aStart result
      = truncLoop limit rest cnt false none (result ++ ['m']) := by
  simp only [truncLoop]
  rw [if_pos hcnt, if_neg (by decide), if_pos trivial, if_pos (by decide)]

theorem truncLoop_step_vis (limit : Int) {c : Char} (hc : (c == escChar) = false)
    (rest : List Char) (cnt : Nat) (hcnt : (cnt : Int) < limit)
    (aStart : Option Nat) (result : List Char) :
    truncLoop limit (c :: rest) cnt false aStart result
      = truncLoop limit rest (cnt + 1) false aStart (result ++ [c]) := by
  simp only [truncLoop]
  rw [if_pos hcnt, if_neg (by simp [hc]), if_neg (by simp)]

theorem truncLoop_mid (limit : Int) (mid : List Char)
    (hmid : ∀ c ∈ mid, (c == escChar) = false ∧ (c == 'm') = false) :
    ∀ (tail : List Char) (cnt : Nat), (cnt : Int) < limit →
      ∀ (aStart : Option Nat) (result : List Char),
        truncLoop limit (mid ++ 'm' :: tail) cnt true aStart result
          = truncLoop limit tail cnt false none ((result ++ mid) ++ ['m']) := by
  induction mid with
  | nil =>
    intro tail cnt hcnt aStart result
    simp only [List.nil_append]
    rw [truncLoop_step_m limit tail cnt hcnt aStart result]
    simp
  | cons c mid ih =>
    intro tail cnt hcnt aStart result
    have hc := hmid c (List.mem_cons_self c mid)
    simp only [List.cons_append]
    rw [truncLoop_step_inA limit hc.1 hc.2 _ cnt hcnt aStart result]
    rw [ih (fun x hx => hmid x (List.mem_cons_of_mem c hx)) tail cnt hcnt aStart
      (result ++ [c])]
    simp

theorem truncLoop_proper (lim : Nat) :
    ∀ (n : Nat) (l : List Char), l.length ≤ n → properAnsi l = true →
      ∀ (cnt : Nat) (result : List Char), cnt ≤ lim →
        properAnsi result = true → (stripAnsiL result).length = cnt →
        properAnsi (truncLoop (lim : Int) l cnt false none result).1 = true ∧
        (stripAnsiL (truncLoop (lim : Int) l cnt false none result).1).length ≤ lim ∧
        (truncLoop (lim : Int) l cnt false none result).2.2.1 = false ∧
        (truncLoop (lim : Int) l cnt false none result).2.2.2 = none := by
  intro n
  induction n with
  | zero =>
    intro l hn _ cnt result hcnt hpr hlen
    have hl0 : l = [] := List.eq_nil_of_length_eq_zero (Nat.le_zero.mp hn)
    subst hl0
    rw [truncLoop_nil]
    exact ⟨hpr, by rw [hlen]; exact hcnt, rfl, rfl⟩
  | succ n ih =>
    intro l hn hl cnt result hcnt hpr hlen
    cases l with
    | nil =>
      rw [truncLoop_nil]
      exact ⟨hpr, by rw [hlen]; exact hcnt, rfl, rfl⟩
    | cons c rest =>
      by_cases hlt : (cnt : Int) < (lim : Int)
      · by_cases hc : c == escChar
        · have hceq : c = escChar := beq_iff_eq.mp hc
          subst hceq
          obtain ⟨r, hpc, hprr⟩ := properAnsi_esc_elim hl
          obtain ⟨mid, hdec, hmid⟩ := parseColorSeq_decomp hpc
          have hmid' : ∀ x ∈ mid, (x == escChar) = false ∧ (x == 'm') = false :=
            fun x hx => ⟨seqChar_ne_esc (hmid x hx).2, (hmid x hx).1⟩
          have hseq : parseColorSeq ('[' :: (mid ++ ['m'])) = some [] := by
            simp only [parseColorSeq]
            rw [if_pos (beq_self_eq_true _)]
            exact parseColorSeqGo_of_mid hmid []
          have hstep : truncLoop (lim : Int) (escChar :: rest) cnt false none result
              = truncLoop (lim : Int) r cnt false none
                  (result ++ (escChar :: '[' :: (mid ++ ['m']))) := by
            rw [truncLoop_step_esc _ _ _ hlt, hdec,
              truncLoop_step_inA _ (by decide) (by decide) _ _ hlt,
              truncLoop_mid _ mid hmid' r cnt hlt _ _]
            congr 1
            simp
          rw [hstep]
          have hblock : properAnsi (escChar :: '[' :: (mid ++ ['m'])) = true := by
            rw [properAnsi_esc hseq]
            exact properAnsi_nil
          have hstrip : stripAnsiL (escChar :: '[' :: (mid ++ ['m'])) = [] := by
            rw [stripAnsiL_esc hseq]
            exact stripAnsiL_nil
          have hpr' : properAnsi (result ++ (escChar :: '[' :: (mid ++ ['m']))) = true :=
            properAnsi_append hpr hblock
          have hlen' :
              (stripAnsiL (result ++ (escChar :: '[' :: (mid ++ ['m'])))).length = cnt := by
            rw [stripAnsiL_append_proper hpr, hstrip, List.append_nil, hlen]
          have hrlen : r.length ≤ n := by
            have h1 := parseColorSeq_length hpc
            simp only [List.length_cons] at hn
            omega
          exact ih r hrlen hprr cnt _ hcnt hpr' hlen'
        · have hc' : (c == escChar) = false := by
            rwa [Bool.not_eq_true] at hc
          rw [truncLoop_step_vis (lim : Int) hc' rest cnt hlt none result]
          have hl' : properAnsi rest = true := by
            rwa [properAnsi_cons_ne hc'] at hl
          have hcnt1 : cnt + 1 ≤ lim := by
            have hcl : cnt < lim := by exact_mod_cast hlt
            omega
          have hpr' : properAnsi (result ++ [c]) = true := by
            apply properAnsi_append hpr
            rw [properAnsi_cons_ne hc']
            exact properAnsi_nil
          have hlen' : (stripAnsiL (result ++ [c])).length = cnt + 1 := by
            rw [stripAnsiL_append_proper hpr, stripAnsiL_cons_ne hc', stripAnsiL_nil]
            simp [hlen]
          exact ih rest (by simp only [List.length_cons] at hn; omega) hl' (cnt + 1) _
            hcnt1 hpr' hlen'
      · rw [truncLoop_step_stop _ _ _ _ hlt]
        exact ⟨hpr, by rw [hlen]; exact hcnt, rfl, rfl⟩

/-- Claim C5 (amended): for a width `W ≥ 3` and an input all of whose escapes
are complete color escapes `ESC[[0-9;]*m` — the only form `stripAnsi`
recognizes and the only one the program's own styling (picocolors) emits —
`truncate` returns strings of visible length at most `W` unchanged, and
otherwise yields a result whose visible length is at most `W` and which again
contains only complete color escapes (an escape in flight at the cut point is
removed, not left open). The unrestricted claim is false: see the
counterexample, where a non-color escape makes the result's visible length
exceed `W`, and any `W < 3` is exceeded by the bare `...` ellipsis. -/
theorem C5_truncate_amended (s : String) (W : Nat)
    (hp : properAnsi s.toList = true) (hW : 3 ≤ W) :
    (visibleLen s ≤ W → truncate s (W : Int) = s) ∧
    visibleLen (truncate s (W : Int)) ≤ W ∧
    properAnsi (truncate s (W : Int)).toList = true := by
  by_cases hv : visibleLen s ≤ W
  · have hfit : truncate s (W : Int) = s := by
      unfold truncate
      rw [if_pos (by exact_mod_cast hv)]
    exact ⟨fun _ => hfit, by rw [hfit]; exact hv, by rw [hfit]; exact hp⟩
  · have hgate : ¬ ((visibleLen s : Int) ≤ (W : Int)) := by exact_mod_cast hv
    obtain ⟨hpr, hlen, hinA, haS⟩ :=
      truncLoop_proper (W - 3) s.toList.length s.toList (le_refl _) hp 0 []
        (Nat.zero_le _) properAnsi_nil (by simp [stripAnsiL_nil])
    have hlim : (W : Int) - 3 = ((W - 3 : Nat) : Int) := by omega
    have heq : truncate s (W : Int) =
        String.mk ((truncLoop ((W - 3 : Nat) : Int) s.toList 0 false none []).1
          ++ ['.', '.', '.']) := by
      unfold truncate
      rw [if_neg hgate]
      dsimp only
      rw [hlim, hinA, haS]
    refine ⟨fun hvv => absurd hvv hv, ?_, ?_⟩
    · rw [heq]
      show (stripAnsiL ((truncLoop ((W - 3 : Nat) : Int) s.toList 0 false none []).1
        ++ ['.', '.', '.'])).length ≤ W
      rw [stripAnsiL_append_proper hpr]
      have hdots : stripAnsiL ['.', '.', '.'] = ['.', '.', '.'] := by
        rw [stripAnsiL_cons_ne (by decide), stripAnsiL_cons_ne (by decide),
          stripAnsiL_cons_ne (by decide), stripAnsiL_nil]
      rw [hdots]
      simp only [List.length_append, List.length_cons, List.length_nil]
      omega
    · rw [heq]
      show properAnsi ((truncLoop ((W - 3 : Nat) : Int) s.toList 0 false none []).1
        ++ ['.', '.', '.']) = true
      apply properAnsi_append hpr
      rw [properAnsi_cons_ne (by decide), properAnsi_cons_ne (by decide),
        properAnsi_cons_ne (by decide)]
      exact properAnsi_nil

/-- Counterexample to claim C5 as stated: the truncation loop treats
everything from an ESC up to the next `m` as invisible escape text, while
`stripAnsi` — the visible-length measure — only removes `ESC[[0-9;]*m`
sequences. On an input whose ESC is not followed by `[`, the result of
`truncate(str, 5)` has visible length 10 > 5. -/
theorem C5_truncate_counterexample :
    5 < visibleLen "\x1BXYZmabcd" ∧
    truncate "\x1BXYZmabcd" 5 = "\x1BXYZmab..." ∧
    5 < visibleLen (truncate "\x1BXYZmabcd" 5) := by
  have hvis : visibleLen "\x1BXYZmabcd" = 9 := by
    simp [visibleLen, visLenL, stripAnsiL, parseColorSeq, parseColorSeqGo, escChar,
      isJsDigit]
  have htr : truncate "\x1BXYZmabcd" 5 = "\x1BXYZmab..." := by
    unfold truncate
    rw [if_neg (by rw [hvis]; decide)]
    rfl
  have hvis2 : visibleLen "\x1BXYZmab..." = 10 := by
    simp [visibleLen, visLenL, stripAnsiL, parseColorSeq, parseColorSeqGo, escChar,
      isJsDigit]
  exact ⟨by rw [hvis]; decide, htr, by rw [htr, hvis2]; decide⟩

/-- Witness for `C5_truncate_amended` at a concrete styled input (red text of
visible length 8) and width 6, with both hypotheses discharged. -/
theorem C5_truncate_amended_witness :
    (properAnsi "\x1B[31mabcdefgh\x1B[39m".toList = true ∧ 3 ≤ 6) ∧
    ((visibleLen "\x1B[31mabcdefgh\x1B[39m" ≤ 6 →
        truncate "\x1B[31mabcdefgh\x1B[39m" ((6 : Nat) : Int) = "\x1B[31mabcdefgh\x1B[39m") ∧
      visibleLen (truncate "\x1B[31mabcdefgh\x1B[39m" ((6 : Nat) : Int)) ≤ 6 ∧
      properAnsi (truncate "\x1B[31mabcdefgh\x1B[39m" ((6 : Nat) : Int)).toList = true) := by
  have hpa : properAnsi "\x1B[31mabcdefgh\x1B[39m".toList = true := by
    simp [properAnsi, parseColorSeq, parseColorSeqGo, escChar, isJsDigit]
  exact ⟨⟨hpa, by decide⟩, C5_truncate_amended "\x1B[31mabcdefgh\x1B[39m" 6 hpa (by decide)⟩

/-! ## Word-wrap line bounds (claim C8) -/

/-- The whitespace-delimited tokens of the input, `text.split(/\s+/)` as the
caller `wordWrap` sees them. -/
def jsTokens (s : String) : List String := (splitWsGo s.toList []).map String.mk

theorem splitWsGo_no_ws (l : List Char) :
    ∀ acc : List Char, (∀ c ∈ l, isJsWs c = false) →
      splitWsGo l acc = [acc.reverse ++ l] := by
  induction l with
  | nil =>
    intro acc _
    simp [splitWsGo_nil]
  | cons c rest ih =>
    intro acc h
    have hc : isJsWs c = false := h c (List.mem_cons_self c rest)
    rw [splitWsGo_cons, if_neg (by simp [hc]),
      ih (c :: acc) (fun x hx => h x (List.mem_cons_of_mem c hx))]
    simp

theorem wordWrapGo_single_over (W : Int) (w : List Char)
    (hov : W < (visLenL w : Int)) :
    wordWrapGo W [w] [] = [(truncate (String.mk w) W).toList] := by
  simp [wordWrapGo, hov]

theorem wordWrapGo_lines (W : Int) (allTok : List (List Char)) :
    ∀ (ws : List (List Char)) (cur : List Char),
      (∀ w ∈ ws, w ∈ allTok) →
      (cur = [] ∨ (visLenL cur : Int) ≤ W ∨ cur ∈ allTok) →
      ∀ line ∈ wordWrapGo W ws cur,
        (visLenL line : Int) ≤ W ∨ line ∈ allTok ∨
          ∃ t ∈ allTok, line = (truncate (String.mk t) W).toList := by
  intro ws
  induction ws with
  | nil =>
    intro cur _ hcur line hline
    simp only [wordWrapGo] at hline
    by_cases hce : cur.isEmpty
    · rw [if_pos hce] at hline
      simp at hline
    · rw [if_neg hce] at hline
      simp only [List.mem_singleton] at hline
      subst hline
      rcases hcur with h | h | h
      · rw [h] at hce
        simp at hce
      · exact Or.inl h
      · exact Or.inr (Or.inl h)
  | cons w ws ih =>
    intro cur hws hcur line hline
    have hwtok : w ∈ allTok := hws w (List.mem_cons_self w ws)
    have hws' : ∀ x ∈ ws, x ∈ allTok := fun x hx => hws x (List.mem_cons_of_mem w hx)
    simp only [wordWrapGo] at hline
    by_cases hov : (visLenL (if cur.isEmpty then w else cur ++ ' ' :: w) : Int) > W
    · rw [if_pos hov] at hline
      by_cases hce : cur.isEmpty
      · rw [if_neg (by simp [hce])] at hline
        rcases List.mem_cons.mp hline with h | h
        · exact Or.inr (Or.inr ⟨w, hwtok, h⟩)
        · exact ih [] hws' (Or.inl rfl) line h
      · have hce' : cur.isEmpty = false := by
          rwa [Bool.not_eq_true] at hce
        rw [if_pos (by simp [hce'])] at hline
        rcases List.mem_cons.mp hline with h | h
        · subst h
          rcases hcur with h0 | h0 | h0
          · rw [h0] at hce'
            simp at hce'
          · exact Or.inl h0
          · exact Or.inr (Or.inl h0)
        · exact ih w hws' (Or.inr (Or.inr hwtok)) line h
    · rw [if_neg hov] at hline
      exact ih (if cur.isEmpty then w else cur ++ ' ' :: w) hws'
        (Or.inr (Or.inl (le_of_not_lt hov))) line hline

/-- Claim C8 (amended): a whitespace-free string whose visible length exceeds
the budget `W` word-wraps to exactly one line, namely its truncation — that
part of the claim holds. The general "every produced line fits within `W`"
part does not (see the counterexample); what holds is: every produced line
fits within `W`, or is one of the whitespace-delimited tokens of the input
emitted verbatim, or is the truncation of such a token. -/
theorem C8_wordwrap_amended (s : String) (W : Int) :
    (s.toList.all (fun c => !isJsWs c) = true → W < (visibleLen s : Int) →
      wordWrap s W = [truncate s W]) ∧
    ∀ line ∈ wordWrap s W,
      (visibleLen line : Int) ≤ W ∨ line ∈ jsTokens s ∨
        ∃ t ∈ jsTokens s, line = truncate t W := by
  constructor
  · intro hall hov
    have hnows : ∀ c ∈ s.toList, isJsWs c = false := by
      intro c hc
      have h1 := List.all_eq_true.mp hall c hc
      simpa using h1
    unfold wordWrap
    rw [splitWsGo_no_ws s.toList [] hnows]
    simp only [List.reverse_nil, List.nil_append]
    rw [wordWrapGo_single_over W s.toList hov]
    rfl
  · intro line hline
    unfold wordWrap at hline
    rcases List.mem_map.mp hline with ⟨lc, hlc, hmk⟩
    subst hmk
    have hres := wordWrapGo_lines W (splitWsGo s.toList []) (splitWsGo s.toList []) []
      (fun x hx => hx) (Or.inl rfl) lc hlc
    rcases hres with h | h | ⟨t, ht, heq⟩
    · exact Or.inl h
    · exact Or.inr (Or.inl (List.mem_map_of_mem String.mk h))
    · refine Or.inr (Or.inr ⟨String.mk t, List.mem_map_of_mem String.mk ht, ?_⟩)
      rw [heq]
      rfl

/-- Counterexample to claim C8 as stated: a token longer than the budget that
arrives while the current line is non-empty is emitted verbatim — the code
only truncates an overlong token when the current line is empty
(review.ts:258-262) — so `wordWrap("aa bbbbbb", 3)` produces the line
`"bbbbbb"` of visible length 6 > 3. -/
theorem C8_wordwrap_counterexample :
    wordWrap "aa bbbbbb" 3 = ["aa", "bbbbbb"] ∧ 3 < visibleLen "bbbbbb" := by
  constructor
  · simp [wordWrap, splitWsGo, splitWsF, wordWrapGo, visLenL, stripAnsiL, escChar,
      isJsWs, parseColorSeq, parseColorSeqGo, truncate, visibleLen, isJsDigit]
  · simp [visibleLen, visLenL, stripAnsiL, escChar]

/-- Witness for `C8_wordwrap_amended` on a concrete whitespace-free overlong
input, with the hypotheses of its first conjunct discharged. -/
theorem C8_wordwrap_amended_witness :
    ("abcdef".toList.all (fun c => !isJsWs c) = true ∧ (4 : Int) < (visibleLen "abcdef" : Int)) ∧
    wordWrap "abcdef" 4 = [truncate "abcdef" 4] :=
  ⟨⟨by decide, by simp [visibleLen, visLenL, stripAnsiL, escChar]⟩,
    (C8_wordwrap_amended "abcdef" 4).1 (by decide)
      (by simp [visibleLen, visLenL, stripAnsiL, escChar])⟩


end BeetleCli
